import Mathlib

/-!
# UART frame parser: ring buffer, variable-length codec, frame builder, parser

A shallow embedding of `fifo.c` and `parser.c`.

Conventions of the embedding

* C `int` values (`head`, `tail`, `size`, `length`, `index`, `sync_pos`) are `Int`;
  C `%` on `int` truncates towards zero, which is `Int.tmod`.
* `unsigned char` values are `Nat` (a well-typed byte is `< 256`); a cast or a
  store into an `unsigned char` is `% 256`.
* `unsigned int` values are `Nat`; arithmetic that can wrap is taken `% 2^32`.
* An array is a function from indices to bytes; a pointer to a caller's array
  (`data`) is a list, read with default `0` past its end.
* A function that writes through pointers returns the new values beside its
  return code.
-/

namespace Uart

/-! ## fifo.h / fifo.c -/

/-- Capacity of the ring buffer (`#define MAX_FIFO_SIZE 2048`). -/
abbrev MAX_FIFO_SIZE : Int := 2048

/-- The C struct `FIFO_Buffer`. -/
structure FIFO_Buffer where
  buffer : Int → Nat
  head : Int
  tail : Int
  size : Int

/-- `init_fifo`: head, tail and size are zeroed and the storage is cleared. -/
def init_fifo : FIFO_Buffer :=
  { buffer := fun _ => 0, head := 0, tail := 0, size := 0 }

/-- The `for` loop of `write_fifo`: `k` remaining iterations, loop index `i`. -/
def write_loop (data : List Nat) : Nat → Nat → FIFO_Buffer → FIFO_Buffer
  | _, 0, fifo => fifo
  | i, k + 1, fifo =>
    write_loop data (i + 1) k
      { fifo with
        buffer := fun p => if p = fifo.tail then data.getD i 0 else fifo.buffer p
        tail := (fifo.tail + 1).tmod MAX_FIFO_SIZE }

/-- `write_fifo(fifo, data, length)`: the return code and the buffer afterwards. -/
def write_fifo (fifo : FIFO_Buffer) (data : List Nat) (length : Int) : Int × FIFO_Buffer :=
  if length > MAX_FIFO_SIZE - fifo.size then
    (-1, fifo)
  else
    let fifo1 := write_loop data 0 length.toNat fifo
    (0, { fifo1 with size := fifo1.size + length })

/-- `read_fifo(fifo, &byte)`: return code, the value of `byte` afterwards (the
argument `byte` is its value before the call), and the buffer afterwards. -/
def read_fifo (fifo : FIFO_Buffer) (byte : Nat) : Int × Nat × FIFO_Buffer :=
  if fifo.size = 0 then
    (-1, byte, fifo)
  else
    (0, fifo.buffer fifo.head,
      { fifo with head := (fifo.head + 1).tmod MAX_FIFO_SIZE, size := fifo.size - 1 })

/-- `peek_fifo(fifo, index, &byte)`: return code, `byte` afterwards, and the
buffer (which the function does not write). -/
def peek_fifo (fifo : FIFO_Buffer) (index : Int) (byte : Nat) : Int × Nat × FIFO_Buffer :=
  if index ≥ fifo.size then
    (-1, byte, fifo)
  else
    let pos := (fifo.head + index).tmod MAX_FIFO_SIZE
    (0, fifo.buffer pos, fifo)

/-! ## parser.h / parser.c -/

/-- Maximum body size (`#define MAX_PACKET_SIZE 1000`). -/
abbrev MAX_PACKET_SIZE : Nat := 1000

/-- Length of the sync marker (`#define SYNC_SEQUENCE_LENGTH 3`). -/
abbrev SYNC_SEQUENCE_LENGTH : Int := 3

/-- The sync marker `{0xAA, 0xBB, 0xCC}`. -/
def SYNC_SEQUENCE : List Nat := [0xAA, 0xBB, 0xCC]

/-- The C enum `ParserState`. -/
inductive ParserState where
  | STATE_SYNC
  | STATE_HEADER_SIZE
  | STATE_HEADER_TYPE
  | STATE_HEADER_CHECKSUM
  | STATE_BODY
  deriving DecidableEq, Repr

open ParserState

/-- One invocation of the packet callback: the type, the first `size` bytes of
the body array it is handed, and `size`. -/
structure PacketEvent where
  type : Nat
  data : List Nat
  size : Nat
  deriving DecidableEq, Repr

/-- The C struct `Parser`. The field `fifo` is the buffer the C field points
to; the callback pointer is represented by the list of invocations that
`parse_uart` returns. -/
structure Parser where
  state : ParserState
  fifo : FIFO_Buffer
  sync_pos : Int
  data_size : Nat
  type : Nat
  header_checksum : Nat
  calculated_header_checksum : Nat
  size_bytes_read : Int
  type_bytes_read : Int
  body : Nat → Nat
  body_bytes_read : Nat

/-- `init_parser(parser, fifo, callback)`. -/
def initParser (fifo : FIFO_Buffer) : Parser :=
  { state := STATE_SYNC
    fifo := fifo
    sync_pos := 0
    data_size := 0
    type := 0
    header_checksum := 0
    calculated_header_checksum := 0
    size_bytes_read := 0
    type_bytes_read := 0
    body := fun _ => 0
    body_bytes_read := 0 }

/-- `decode_variable_length(fifo, parser, &value)` where `parser->fifo` is
`fifo` (the only call sites pass `parser->fifo`): return code, `value`
afterwards, buffer afterwards. The local `byte` starts uninitialised and is
only used after a successful `read_fifo`. -/
def decode_variable_length (fifo : FIFO_Buffer) (value : Nat) : Int × Nat × FIFO_Buffer :=
  let r1 := read_fifo fifo 0
  if r1.1 ≠ 0 then
    (-1, value, r1.2.2)
  else
    let byte := r1.2.1
    if byte < 128 then
      (0, byte, r1.2.2)
    else
      let byte1 := byte
      let r2 := read_fifo r1.2.2 byte
      if r2.1 ≠ 0 then
        let f := r2.2.2
        (-1, value,
          { f with
            head := (f.head - 1 + MAX_FIFO_SIZE).tmod MAX_FIFO_SIZE
            size := f.size + 1 })
      else
        (0, (byte1 - 128) + (r2.2.1 <<< 7), r2.2.2)

/-- Conversion of an `unsigned int` to `int` (two's complement). -/
def to_int (u : Nat) : Int :=
  if u % 4294967296 < 2147483648 then ((u % 4294967296 : Nat) : Int)
  else ((u % 4294967296 : Nat) : Int) - 4294967296

/-- Conversion of an `int` to `unsigned int`. -/
def to_unsigned (i : Int) : Nat :=
  (i % 4294967296).toNat

/-- The callback invocation `parser->callback(parser->type, parser->body,
parser->body_bytes_read)`. -/
def callback_event (parser : Parser) : PacketEvent :=
  { type := parser.type
    data := (List.range parser.body_bytes_read).map parser.body
    size := parser.body_bytes_read }

/-- The `for` loop of the complete-body branch of `STATE_BODY`:
`read_fifo(parser->fifo, &byte); parser->body[i] = byte;` with `k` remaining
iterations and loop index `i`. A failed `read_fifo` leaves `byte` as it was. -/
def body_read_all : Nat → Nat → Parser → Nat → Parser × Nat
  | _, 0, parser, byte => (parser, byte)
  | i, k + 1, parser, byte =>
    let r := read_fifo parser.fifo byte
    let byte := r.2.1
    body_read_all (i + 1) k
      { parser with
        fifo := r.2.2
        body := fun j => if j = i then byte else parser.body j }
      byte

/-- The `for` loop of the partial-body branch of `STATE_BODY`, with `k`
remaining iterations; it stops early (`break`) on the overflow branch. -/
def body_read_available : Nat → Parser → Nat → Parser × Nat
  | 0, parser, byte => (parser, byte)
  | k + 1, parser, byte =>
    let r := read_fifo parser.fifo byte
    let byte := r.2.1
    let parser := { parser with fifo := r.2.2 }
    if parser.body_bytes_read < MAX_PACKET_SIZE then
      body_read_available k
        { parser with
          body := fun j => if j = parser.body_bytes_read then byte else parser.body j
          body_bytes_read := (parser.body_bytes_read + 1) % 4294967296 }
        byte
    else
      ({ parser with state := STATE_SYNC }, byte)

/-- Outcome of one iteration of the `while` loop of `parse_uart`: the parser
and the local `byte` afterwards, the callback invocations made, and whether
the iteration left the function through `return`. -/
structure StepResult where
  parser : Parser
  byte : Nat
  calls : List PacketEvent
  returned : Bool

/-- The body of the `while` loop of `parse_uart` (the `switch`), run when
`parser->fifo->size > 0`. -/
def parse_step (parser : Parser) (byte : Nat) : StepResult :=
  match parser.state with
  | STATE_SYNC =>
    let pk := peek_fifo parser.fifo 0 byte
    let byte := pk.2.1
    if pk.1 = 0 then
      if byte = SYNC_SEQUENCE.getD parser.sync_pos.toNat 0 then
        let parser := { parser with sync_pos := parser.sync_pos + 1 }
        let r := read_fifo parser.fifo byte
        let byte := r.2.1
        let parser := { parser with fifo := r.2.2 }
        if parser.sync_pos = SYNC_SEQUENCE_LENGTH then
          { parser :=
              { parser with
                state := STATE_HEADER_SIZE
                sync_pos := 0
                data_size := 0
                type := 0
                header_checksum := 0
                calculated_header_checksum := 0
                size_bytes_read := 0
                type_bytes_read := 0 }
            byte := byte, calls := [], returned := false }
        else
          { parser := parser, byte := byte, calls := [], returned := false }
      else
        let parser := { parser with sync_pos := 0 }
        let r := read_fifo parser.fifo byte
        { parser := { parser with fifo := r.2.2 }, byte := r.2.1, calls := [], returned := false }
    else
      { parser := parser, byte := byte, calls := [], returned := false }
  | STATE_HEADER_SIZE =>
    let d := decode_variable_length parser.fifo 0
    let parser := { parser with fifo := d.2.2 }
    if d.1 = 0 then
      let size := d.2.1
      { parser :=
          { parser with
            data_size := size
            calculated_header_checksum :=
              (parser.calculated_header_checksum + (size &&& 0xFF)) % 256
            state := STATE_HEADER_TYPE }
        byte := byte, calls := [], returned := false }
    else
      { parser := parser, byte := byte, calls := [], returned := true }
  | STATE_HEADER_TYPE =>
    let d := decode_variable_length parser.fifo 0
    let parser := { parser with fifo := d.2.2 }
    if d.1 = 0 then
      let type := d.2.1
      { parser :=
          { parser with
            type := type
            calculated_header_checksum :=
              (parser.calculated_header_checksum + (type &&& 0xFF)) % 256
            state := STATE_HEADER_CHECKSUM }
        byte := byte, calls := [], returned := false }
    else
      { parser := parser, byte := byte, calls := [], returned := true }
  | STATE_HEADER_CHECKSUM =>
    let r := read_fifo parser.fifo byte
    let byte := r.2.1
    let parser := { parser with fifo := r.2.2 }
    if r.1 = 0 then
      let parser := { parser with header_checksum := byte }
      -- the result of `calculate_checksum` is overwritten by the accumulated checksum
      let computed_checksum := parser.calculated_header_checksum
      if computed_checksum = parser.header_checksum then
        if parser.data_size > MAX_PACKET_SIZE then
          { parser := { parser with state := STATE_SYNC }
            byte := byte, calls := [], returned := false }
        else
          let parser := { parser with body_bytes_read := 0 }
          if parser.data_size = 0 then
            { parser := { parser with state := STATE_SYNC }
              byte := byte, calls := [callback_event parser], returned := false }
          else
            { parser := { parser with state := STATE_BODY }
              byte := byte, calls := [], returned := false }
      else
        { parser := { parser with state := STATE_SYNC }
          byte := byte, calls := [], returned := false }
    else
      { parser := parser, byte := byte, calls := [], returned := true }
  | STATE_BODY =>
    let bytes_available : Int := parser.fifo.size
    let bytes_to_read : Int :=
      to_int (to_unsigned ((parser.data_size : Int) - (parser.body_bytes_read : Int)))
    if bytes_available ≥ bytes_to_read then
      let r := read_fifo parser.fifo byte
      let l := body_read_all 0 bytes_to_read.toNat { parser with fifo := r.2.2 } r.2.1
      let parser := l.1
      let parser :=
        { parser with
          body_bytes_read := to_unsigned ((parser.body_bytes_read : Int) + bytes_to_read) }
      { parser := { parser with state := STATE_SYNC }
        byte := l.2, calls := [callback_event parser], returned := false }
    else
      let l := body_read_available bytes_available.toNat parser byte
      { parser := l.1, byte := l.2, calls := [], returned := true }

/-- The `while (parser->fifo->size > 0)` loop of `parse_uart`, bounded by
`fuel` iterations; `none` when the fuel runs out before the loop ends. -/
def parse_loop : Nat → Parser → Nat → List PacketEvent → Option (Parser × List PacketEvent)
  | 0, _, _, _ => none
  | fuel + 1, parser, byte, calls =>
    if parser.fifo.size > 0 then
      let r := parse_step parser byte
      if r.returned then
        some (r.parser, calls ++ r.calls)
      else
        parse_loop fuel r.parser r.byte (calls ++ r.calls)
    else
      some (parser, calls)

/-- `parse_uart(parser)`: the parser afterwards and the callback invocations
made, in order. Every iteration that does not return removes at least one
byte, so `size + 1` iterations suffice. The local `byte` starts
uninitialised; every branch assigns it before reading it. -/
def parse_uart (parser : Parser) : Option (Parser × List PacketEvent) :=
  parse_loop (parser.fifo.size.toNat + 1) parser 0 []


/-- `encode_variable_length(value, output, &length)`: the bytes
`output[0 .. length)`; the return code is always `0`. -/
def encode_variable_length (value : Nat) : List Nat :=
  if value < 128 then
    [(value &&& 0x7F) % 256]
  else
    [((value - 128) &&& 0x7F) % 256, ((value >>> 7) &&& 0xFF) % 256]

/-- The header checksum loop of `build_packet`: `checksum += packet[i]` on an
`unsigned char`. -/
def header_checksum_loop (bytes : List Nat) : Nat :=
  bytes.foldl (fun checksum b => (checksum + b) % 256) 0

/-- The `n` bytes `memcpy` reads from `src`. -/
def memcpy_bytes (src : List Nat) (n : Nat) : List Nat :=
  (List.range n).map (fun i => src.getD i 0)

/-- `build_packet(packet, &packet_length, data_size, type, data)`: return
code, the bytes written to `packet` from index 0, and `*packet_length`.
`data = none` is the NULL pointer. `pos` is an `int` to which the
`unsigned int` `data_size` is added, so that sum is taken modulo `2^32`. -/
def build_packet (data_size type : Nat) (data : Option (List Nat)) : Int × List Nat × Nat :=
  let packet := SYNC_SEQUENCE
  let pos : Nat := 3
  let size_encoded := encode_variable_length data_size
  let packet := packet ++ size_encoded
  let pos := pos + size_encoded.length
  let type_encoded := encode_variable_length type
  let packet := packet ++ type_encoded
  let pos := pos + type_encoded.length
  let checksum := header_checksum_loop (packet.drop 3)
  let packet := packet ++ [checksum]
  let pos := pos + 1
  match data with
  | some d =>
    if data_size > 0 then
      (0, packet ++ memcpy_bytes d data_size, (pos + data_size) % 4294967296)
    else
      (0, packet, pos)
  | none => (0, packet, pos)

/-! ## Delivery harness (the chunk loop of `main.c`) -/

/-- One round of the loop in `main`: `write_fifo(&fifo, chunk, len)` (return
code ignored) followed by `parse_uart(&parser)`. -/
def deliver (parser : Parser) (chunk : List Nat) : Option (Parser × List PacketEvent) :=
  parse_uart { parser with fifo := (write_fifo parser.fifo chunk chunk.length).2 }

/-- The loop of `main` over a list of chunks, collecting the callback
invocations of all rounds. -/
def deliver_all : Parser → List (List Nat) → Option (Parser × List PacketEvent)
  | parser, [] => some (parser, [])
  | parser, chunk :: rest =>
    match deliver parser chunk with
    | none => none
    | some (parser1, calls1) =>
      match deliver_all parser1 rest with
      | none => none
      | some (parser2, calls2) => some (parser2, calls1 ++ calls2)

/-- The callback invocations of a run, when it terminates. -/
def calls_of (r : Option (Parser × List PacketEvent)) : Option (List PacketEvent) :=
  r.map (fun x => x.2)

/-- A frame delivered one byte per round. -/
def bytewise (frame : List Nat) : List (List Nat) :=
  frame.map (fun b => [b])


/-! ## Specification vocabulary -/

/-- The ring-buffer invariant of the data model: `0 ≤ size ≤ C`, the cursors
lie in `[0, C)`, and `tail = (head + size) mod C`. -/
def FifoInv (f : FIFO_Buffer) : Prop :=
  0 ≤ f.size ∧ f.size ≤ 2048 ∧ 0 ≤ f.head ∧ f.head < 2048 ∧
    0 ≤ f.tail ∧ f.tail < 2048 ∧ f.tail = (f.head + f.size) % 2048

instance (f : FIFO_Buffer) : Decidable (FifoInv f) := by
  unfold FifoInv; infer_instance

/-- Every stored byte is a well-typed `unsigned char`. -/
def ByteBuffer (f : FIFO_Buffer) : Prop :=
  ∀ p : Int, f.buffer p < 256

/-- The logical content of the buffer: the `size` bytes from `head` on, in
the order `read_fifo` will return them. -/
def contents (f : FIFO_Buffer) : List Nat :=
  (List.range f.size.toNat).map (fun (i : Nat) => f.buffer ((f.head + (i : Int)) % 2048))

/-- The buffer after `k` bytes have been consumed from its front. -/
def consumed (f : FIFO_Buffer) (k : Int) : FIFO_Buffer :=
  { f with head := (f.head + k) % 2048, size := f.size - k }

/-- `n` successive calls of `read_fifo`: the bytes returned and the buffer
afterwards, or `none` as soon as one call fails. -/
def read_n : Nat → FIFO_Buffer → Option (List Nat × FIFO_Buffer)
  | 0, f => some ([], f)
  | n + 1, f =>
    let r := read_fifo f 0
    if r.1 = 0 then
      match read_n n r.2.2 with
      | some (bytes, f1) => some (r.2.1 :: bytes, f1)
      | none => none
    else
      none

/-- A buffer that holds exactly the given bytes (written after `init_fifo`). -/
def fifo_of (bytes : List Nat) : FIFO_Buffer :=
  (write_fifo init_fifo bytes bytes.length).2

/-! ## Vocabulary for the drive loop -/

/-- The number of times the body of the `while` loop of `parse_uart` runs,
within `fuel` iterations. -/
def parse_iterations : Nat → Parser → Nat → Nat
  | 0, _, _ => 0
  | fuel + 1, parser, byte =>
    if parser.fifo.size > 0 then
      let r := parse_step parser byte
      if r.returned then 1 else 1 + parse_iterations fuel r.parser r.byte
    else 0

/-- The parser states reachable from `init_fifo` + `init_parser` by
`write_fifo` calls with `length ≥ 0`, by loop iterations of `parse_uart`, and
by complete `parse_uart` calls. -/
inductive Reachable : Parser → Prop
  | init : Reachable (initParser init_fifo)
  | write (p : Parser) (data : List Nat) (length : Int) :
      Reachable p → 0 ≤ length →
      Reachable { p with fifo := (write_fifo p.fifo data length).2 }
  | iteration (p : Parser) (byte : Nat) :
      Reachable p → p.fifo.size > 0 → Reachable (parse_step p byte).parser
  | parse (p q : Parser) (calls : List PacketEvent) :
      Reachable p → parse_uart p = some (q, calls) → Reachable q

/-- Body bookkeeping: in `STATE_BODY` the counter is below the declared size,
which is at most `MAX_PACKET_SIZE`, and no index `≥ MAX_PACKET_SIZE` of the
body array has been written since `init_parser`. -/
def BodyInv (p : Parser) : Prop :=
  (p.state = STATE_BODY → p.body_bytes_read < p.data_size ∧ p.data_size ≤ 1000) ∧
    ∀ j : Nat, 1000 ≤ j → p.body j = 0

/-- The loop of `parse_uart` entered with the local `byte` and the callback
invocations made so far. -/
def drive (parser : Parser) (byte : Nat) (calls : List PacketEvent) :
    Option (Parser × List PacketEvent) :=
  parse_loop (parser.fifo.size.toNat + 1) parser byte calls

/-- A byte the parser consumes on its own in one loop iteration: any byte in
`STATE_SYNC` and `STATE_HEADER_CHECKSUM`, a byte `< 128` in `STATE_HEADER_SIZE`
and `STATE_HEADER_TYPE`. -/
def feedable (p : Parser) (b : Nat) : Prop :=
  p.state ≠ STATE_BODY ∧
    ((p.state = STATE_HEADER_SIZE ∨ p.state = STATE_HEADER_TYPE) → b < 128)

instance (p : Parser) (b : Nat) : Decidable (feedable p b) := by
  unfold feedable; infer_instance

/-- The effect of one loop iteration on the parser fields when the next
buffered byte is `b`: `parse_step` run on a buffer holding just `b`, with the
parser's own buffer put back. -/
def feed (p : Parser) (b : Nat) : Parser × List PacketEvent :=
  let r := parse_step { p with fifo := fifo_of [b] } 0
  ({ r.parser with fifo := p.fifo }, r.calls)

/-- The bytes of `l` fed one after the other. -/
def feed_all : Parser → List Nat → Parser × List PacketEvent
  | p, [] => (p, [])
  | p, b :: rest =>
    let r := feed p b
    let r2 := feed_all r.1 rest
    (r2.1, r.2 ++ r2.2)

/-- Every byte of `l` is consumed on its own along the way. -/
def Feedable : Parser → List Nat → Prop
  | _, [] => True
  | p, b :: rest => feedable p b ∧ Feedable (feed p b).1 rest

/-- The marker search of `STATE_SYNC` on a byte list, started with match
cursor `c`: a matching byte advances the cursor, any other byte resets it to 0
and is dropped. `none` when the marker is completed inside the list,
otherwise the cursor at the end. -/
def restart_scan : Nat → List Nat → Option Nat
  | c, [] => some c
  | c, b :: rest =>
    if b = SYNC_SEQUENCE.getD c 0 then
      if c + 1 = 3 then none else restart_scan (c + 1) rest
    else restart_scan 0 rest

/-- What `parse_uart` may leave buffered when it returns: nothing, or the
single first byte (`≥ 128`) of an incomplete two-byte field while the parser
waits in `STATE_HEADER_SIZE` or `STATE_HEADER_TYPE`. -/
def Drained (p : Parser) : Prop :=
  p.fifo.size = 0 ∨
    (p.fifo.size = 1 ∧ 128 ≤ p.fifo.buffer p.fifo.head ∧
      (p.state = STATE_HEADER_SIZE ∨ p.state = STATE_HEADER_TYPE))

/-! ## The demo harness of `main.c` -/

/-- The byte stream of `main`: the three demo packets one after the other. -/
def demo_stream : List Nat :=
  (build_packet 4 5 (some [0x10, 0x20, 0x30, 0x40])).2.1
    ++ (build_packet 2 130 (some [0x50, 0x60])).2.1
    ++ (build_packet 0 7 none).2.1

/-- The variable `stream_pos` of `main`: the sum of the three reported packet
lengths. -/
def demo_stream_pos : Int :=
  ((build_packet 4 5 (some [0x10, 0x20, 0x30, 0x40])).2.2 : Int)
    + ((build_packet 2 130 (some [0x50, 0x60])).2.2 : Int)
    + ((build_packet 0 7 none).2.2 : Int)

/-- The chunk sizes of `main`: `{5, 10, 15, stream_pos - 30}`. -/
def demo_chunk_sizes : List Int :=
  [5, 10, 15, demo_stream_pos - 30]

/-- The `for` loop of `main` over the chunk sizes: each round clamps the
chunk size to the bytes left, calls `write_fifo(&fifo, &stream[current_pos],
chunk_size)`, advances `current_pos` and calls `parse_uart`. The result is
the parser, `current_pos` and the callback invocations so far. -/
def main_chunk_loop (stream : List Nat) (stream_pos : Int) :
    List Int → Parser → Int → List PacketEvent → Option (Parser × Int × List PacketEvent)
  | [], parser, current_pos, calls => some (parser, current_pos, calls)
  | size :: rest, parser, current_pos, calls =>
    let chunk_size := if current_pos + size > stream_pos then stream_pos - current_pos else size
    let w := write_fifo parser.fifo (stream.drop current_pos.toNat) chunk_size
    match parse_uart { parser with fifo := w.2 } with
    | none => none
    | some (parser1, calls1) =>
      main_chunk_loop stream stream_pos rest parser1 (current_pos + chunk_size) (calls ++ calls1)

/-! ## Basic facts -/

theorem tmod_cap (a : Int) (h : 0 ≤ a) : a.tmod 2048 = a % 2048 :=
  Int.tmod_eq_emod h (by decide)

theorem FIFO_Buffer.ext_fields {f g : FIFO_Buffer} (hb : f.buffer = g.buffer)
    (hh : f.head = g.head) (ht : f.tail = g.tail) (hs : f.size = g.size) : f = g := by
  cases f; cases g; simp_all

theorem fifoInv_init : FifoInv init_fifo := by
  simp [FifoInv, init_fifo]

theorem read_fifo_empty (f : FIFO_Buffer) (b : Nat) (h : f.size = 0) :
    read_fifo f b = (-1, b, f) := by
  simp [read_fifo, h]

theorem read_fifo_nonempty (f : FIFO_Buffer) (b : Nat) (hs : f.size ≠ 0) (hh : 0 ≤ f.head) :
    read_fifo f b = (0, f.buffer f.head, consumed f 1) := by
  have h1 : (f.head + 1).tmod 2048 = (f.head + 1) % 2048 := tmod_cap _ (by omega)
  simp [read_fifo, hs, consumed, h1]

theorem fifoInv_consumed_one (f : FIFO_Buffer) (h : FifoInv f) (hs : f.size ≠ 0) :
    FifoInv (consumed f 1) := by
  simp only [FifoInv, consumed] at *
  omega

theorem consumed_consumed_one (f : FIFO_Buffer) :
    consumed (consumed f 1) 1 = consumed f 2 := by
  apply FIFO_Buffer.ext_fields <;> simp only [consumed] <;> omega


/-! ## The four paths of `decode_variable_length` -/

theorem decode_empty (f : FIFO_Buffer) (v : Nat) (hs : f.size = 0) :
    decode_variable_length f v = (-1, v, f) := by
  simp [decode_variable_length, read_fifo_empty f 0 hs]

theorem decode_one_byte (f : FIFO_Buffer) (v : Nat) (hs : f.size ≠ 0) (hh : 0 ≤ f.head)
    (hb : f.buffer f.head < 128) :
    decode_variable_length f v = (0, f.buffer f.head, consumed f 1) := by
  simp [decode_variable_length, read_fifo_nonempty f 0 hs hh, hb]

theorem decode_push_back (f : FIFO_Buffer) (v : Nat) (hs : f.size = 1) (hh : 0 ≤ f.head)
    (hh2 : f.head < 2048) (hb : 128 ≤ f.buffer f.head) :
    decode_variable_length f v = (-1, v, f) := by
  have hs0 : f.size ≠ 0 := by omega
  have hc : (consumed f 1).size = 0 := by simp [consumed, hs]
  have ht : ((f.head + 1) % 2048 - 1 + 2048).tmod 2048 = f.head := by
    rw [tmod_cap _ (by omega)]; omega
  have hnb : ¬ f.buffer f.head < 128 := by omega
  simp only [decode_variable_length, read_fifo_nonempty f 0 hs0 hh,
    read_fifo_empty (consumed f 1) _ hc, hnb]
  simp
  apply FIFO_Buffer.ext_fields <;> simp [consumed, ht, hs]

theorem decode_two_bytes (f : FIFO_Buffer) (v : Nat) (hs0 : f.size ≠ 0) (hs1 : f.size ≠ 1)
    (hh : 0 ≤ f.head) (hb : 128 ≤ f.buffer f.head) :
    decode_variable_length f v =
      ((0 : Int), (f.buffer f.head - 128) + (f.buffer ((f.head + 1) % 2048) <<< 7),
        consumed f 2) := by
  have hc : (consumed f 1).size ≠ 0 := by simp only [consumed]; omega
  have hch : 0 ≤ (consumed f 1).head := by simp only [consumed]; omega
  have hnb : ¬ f.buffer f.head < 128 := by omega
  simp only [decode_variable_length, read_fifo_nonempty f 0 hs0 hh,
    read_fifo_nonempty (consumed f 1) _ hc hch, hnb, consumed_consumed_one]
  simp [consumed]


/-! ## The copy loop of `write_fifo` -/

theorem write_loop_spec (data : List Nat) (k : Nat) :
    ∀ (i : Nat) (f : FIFO_Buffer), 0 ≤ f.tail → f.tail < 2048 → (k : Int) ≤ 2048 →
      (write_loop data i k f).head = f.head ∧
      (write_loop data i k f).size = f.size ∧
      (write_loop data i k f).tail = (f.tail + (k : Int)) % 2048 ∧
      ∀ p : Int, 0 ≤ p → p < 2048 →
        (write_loop data i k f).buffer p =
          if (p - f.tail) % 2048 < (k : Int) then
            data.getD (i + ((p - f.tail) % 2048).toNat) 0
          else f.buffer p := by
  induction k with
  | zero =>
    intro i f h0 h1 _
    refine ⟨rfl, rfl, ?_, ?_⟩
    · simp only [write_loop]; omega
    · intro p _ _
      simp only [write_loop]
      rw [if_neg (by omega)]
  | succ k ih =>
    intro i f h0 h1 hk
    have ht : (f.tail + 1).tmod 2048 = (f.tail + 1) % 2048 := tmod_cap _ (by omega)
    have hk1 : (k : Int) + 1 ≤ 2048 := by exact_mod_cast hk
    obtain ⟨ihh, ihs, iht, ihb⟩ := ih (i + 1)
      { f with
        buffer := fun p => if p = f.tail then data.getD i 0 else f.buffer p
        tail := (f.tail + 1).tmod MAX_FIFO_SIZE }
      (by simp only [MAX_FIFO_SIZE, ht]; omega) (by simp only [MAX_FIFO_SIZE, ht]; omega)
      (by omega)
    simp only [MAX_FIFO_SIZE, ht] at ihh ihs iht ihb
    refine ⟨?_, ?_, ?_, ?_⟩
    · simp only [write_loop, MAX_FIFO_SIZE, ht]; exact ihh
    · simp only [write_loop, MAX_FIFO_SIZE, ht]; exact ihs
    · simp only [write_loop, MAX_FIFO_SIZE, ht, iht]
      push_cast
      omega
    · intro p hp0 hp1
      simp only [write_loop, MAX_FIFO_SIZE, ht]
      rw [ihb p hp0 hp1]
      push_cast
      by_cases hpt : p = f.tail
      · subst hpt
        have e1 : ¬ (f.tail - (f.tail + 1) % 2048) % 2048 < (k : Int) := by omega
        have e2 : (f.tail - f.tail) % 2048 < (k : Int) + 1 := by omega
        have e3 : ((f.tail - f.tail) % 2048).toNat = 0 := by omega
        simp [e1, e2, e3]
      · by_cases hd : (p - f.tail) % 2048 < (k : Int) + 1
        · have e1 : (p - (f.tail + 1) % 2048) % 2048 < (k : Int) := by omega
          have e3 : i + 1 + ((p - (f.tail + 1) % 2048) % 2048).toNat =
              i + ((p - f.tail) % 2048).toNat := by omega
          simp [e1, hd, e3]
        · have e1 : ¬ (p - (f.tail + 1) % 2048) % 2048 < (k : Int) := by omega
          simp [e1, hd, hpt]


/-! ## `write_fifo` and `read_fifo` on the logical content -/

theorem contents_length (f : FIFO_Buffer) : (contents f).length = f.size.toNat := by
  simp [contents]

theorem memcpy_bytes_length (src : List Nat) (n : Nat) : (memcpy_bytes src n).length = n := by
  simp [memcpy_bytes]

theorem memcpy_bytes_self (src : List Nat) : memcpy_bytes src src.length = src := by
  apply List.ext_getElem
  · simp [memcpy_bytes]
  · intro j h1 h2
    simp [memcpy_bytes, List.getElem?_eq_getElem h2]

theorem write_fifo_fail (f : FIFO_Buffer) (data : List Nat) (n : Int)
    (h : n > 2048 - f.size) : write_fifo f data n = (-1, f) := by
  simp [write_fifo, h]

theorem write_fifo_ok (f : FIFO_Buffer) (data : List Nat) (n : Int) (h : FifoInv f)
    (h0 : 0 ≤ n) (hfit : n ≤ 2048 - f.size) :
    (write_fifo f data n).1 = 0 ∧ FifoInv (write_fifo f data n).2 ∧
      (write_fifo f data n).2.head = f.head ∧
      (write_fifo f data n).2.size = f.size + n ∧
      (write_fifo f data n).2.tail = (f.tail + n) % 2048 ∧
      contents (write_fifo f data n).2 = contents f ++ memcpy_bytes data n.toNat := by
  obtain ⟨hs0, hs1, hh0, hh1, ht0, ht1, ht⟩ := h
  have hn : ¬ n > MAX_FIFO_SIZE - f.size := by simp only [MAX_FIFO_SIZE]; omega
  have hcast : ((n.toNat : Nat) : Int) = n := Int.toNat_of_nonneg h0
  obtain ⟨lh, ls, lt, lb⟩ := write_loop_spec data n.toNat 0 f ht0 ht1 (by omega)
  rw [hcast] at lt lb
  simp only [write_fifo, hn, if_false]
  refine ⟨trivial, ?_, lh, ?_, lt, ?_⟩
  · simp only [FifoInv, lh, ls, lt]
    omega
  · simp only [ls]
  · apply List.ext_getElem
    · simp only [contents, memcpy_bytes, ls, lh, List.length_append, List.length_map,
        List.length_range]
      omega
    · intro j h1 h2
      have hj1 : j < (f.size + n).toNat := by
        simpa [contents, ls, lh] using h1
      by_cases hj : j < f.size.toNat
      · rw [List.getElem_append_left (by simpa [contents] using hj)]
        simp only [contents, ls, lh, List.getElem_map, List.getElem_range]
        rw [lb _ (by omega) (by omega), if_neg (by omega)]
      · rw [List.getElem_append_right (by simp only [contents_length]; omega)]
        simp only [contents, memcpy_bytes, ls, lh, List.getElem_map, List.getElem_range,
          List.length_map, List.length_range]
        rw [lb _ (by omega) (by omega), if_pos (by omega)]
        congr 1
        omega

theorem read_fifo_contents (f : FIFO_Buffer) (h : FifoInv f) (hs : f.size ≠ 0) :
    contents f = f.buffer f.head :: contents (consumed f 1) := by
  obtain ⟨hs0, hs1, hh0, hh1, ht0, ht1, ht⟩ := h
  apply List.ext_getElem
  · simp only [contents, consumed, List.length_cons, List.length_map, List.length_range]
    omega
  · intro j h1 h2
    simp only [contents, List.length_map, List.length_range] at h1
    cases j with
    | zero =>
      simp only [contents, List.getElem_map, List.getElem_range, List.getElem_cons_zero]
      congr 1
      omega
    | succ j =>
      simp only [contents, consumed, List.getElem_map, List.getElem_range,
        List.getElem_cons_succ]
      congr 1
      push_cast
      omega

theorem read_n_spec (n : Nat) :
    ∀ f : FIFO_Buffer, FifoInv f → (n : Int) ≤ f.size →
      ∃ g, read_n n f = some ((contents f).take n, g) ∧ FifoInv g ∧
        g.size = f.size - n ∧ contents g = (contents f).drop n := by
  induction n with
  | zero =>
    intro f h _
    exact ⟨f, by simp [read_n], h, by simp, by simp⟩
  | succ n ih =>
    intro f h hn
    have hs : f.size ≠ 0 := by omega
    have hinv := fifoInv_consumed_one f h hs
    obtain ⟨g, hg, hgi, hgs, hgc⟩ := ih (consumed f 1) hinv (by simp only [consumed]; omega)
    refine ⟨g, ?_, hgi, ?_, ?_⟩
    · simp only [read_n, read_fifo_nonempty f 0 hs h.2.2.1, hg, if_true]
      rw [read_fifo_contents f h hs]
      simp
    · simp only [consumed] at hgs
      rw [hgs]; push_cast; omega
    · rw [hgc, read_fifo_contents f h hs]
      simp


/-! ## Invariant preservation -/

theorem fifoInv_read (f : FIFO_Buffer) (b : Nat) (h : FifoInv f) :
    FifoInv (read_fifo f b).2.2 := by
  by_cases hs : f.size = 0
  · rw [read_fifo_empty f b hs]; exact h
  · rw [read_fifo_nonempty f b hs h.2.2.1]; exact fifoInv_consumed_one f h hs

theorem fifoInv_write (f : FIFO_Buffer) (data : List Nat) (n : Int) (h : FifoInv f)
    (h0 : 0 ≤ n) : FifoInv (write_fifo f data n).2 := by
  by_cases hfit : n > 2048 - f.size
  · rw [write_fifo_fail f data n hfit]; exact h
  · exact (write_fifo_ok f data n h h0 (by omega)).2.1

theorem fifoInv_consumed_two (f : FIFO_Buffer) (h : FifoInv f) (hs0 : f.size ≠ 0)
    (hs1 : f.size ≠ 1) : FifoInv (consumed f 2) := by
  simp only [FifoInv, consumed] at *
  omega

theorem fifoInv_decode (f : FIFO_Buffer) (v : Nat) (h : FifoInv f) :
    FifoInv (decode_variable_length f v).2.2 := by
  by_cases hs : f.size = 0
  · rw [decode_empty f v hs]; exact h
  · by_cases hb : f.buffer f.head < 128
    · rw [decode_one_byte f v hs h.2.2.1 hb]; exact fifoInv_consumed_one f h hs
    · by_cases hs1 : f.size = 1
      · rw [decode_push_back f v hs1 h.2.2.1 h.2.2.2.1 (by omega)]; exact h
      · rw [decode_two_bytes f v hs hs1 h.2.2.1 (by omega)]
        exact fifoInv_consumed_two f h hs hs1

/-! ## Frame builder -/

theorem header_checksum_loop_acc (l : List Nat) :
    ∀ a : Nat, a < 256 →
      l.foldl (fun checksum b => (checksum + b) % 256) a = (a + l.sum) % 256 := by
  induction l with
  | nil => intro a ha; simp; omega
  | cons b l ih =>
    intro a _
    simp only [List.foldl_cons, List.sum_cons]
    rw [ih _ (Nat.mod_lt _ (by decide))]
    omega

theorem header_checksum_loop_eq (l : List Nat) : header_checksum_loop l = l.sum % 256 := by
  simp [header_checksum_loop, header_checksum_loop_acc l 0 (by decide)]

theorem encode_length (value : Nat) :
    (encode_variable_length value).length = if value < 128 then 1 else 2 := by
  unfold encode_variable_length
  split <;> simp


/-! ## Termination of the drive loop -/

theorem read_fifo_size_le (f : FIFO_Buffer) (b : Nat) : (read_fifo f b).2.2.size ≤ f.size := by
  unfold read_fifo
  split <;> simp

theorem read_fifo_size_lt (f : FIFO_Buffer) (b : Nat) (h : 0 < f.size) :
    (read_fifo f b).2.2.size < f.size := by
  have hne : f.size ≠ 0 := by omega
  simp [read_fifo, hne]

theorem decode_size_lt (f : FIFO_Buffer) (v : Nat)
    (h : (decode_variable_length f v).1 = 0) :
    (decode_variable_length f v).2.2.size < f.size := by
  revert h
  simp only [decode_variable_length, read_fifo]
  split_ifs <;> simp <;> omega

theorem body_read_all_size_le (k : Nat) :
    ∀ (i : Nat) (p : Parser) (b : Nat), (body_read_all i k p b).1.fifo.size ≤ p.fifo.size := by
  induction k with
  | zero => intro i p b; simp [body_read_all]
  | succ k ih =>
    intro i p b
    simp only [body_read_all]
    exact le_trans (ih _ _ _) (read_fifo_size_le p.fifo b)

theorem parse_step_progress (p : Parser) (b : Nat) (hs : 0 < p.fifo.size)
    (hr : (parse_step p b).returned = false) :
    (parse_step p b).parser.fifo.size < p.fifo.size := by
  have hrd := read_fifo_size_lt p.fifo
  cases hst : p.state
  · have hpk : ¬ (0 : Int) ≥ p.fifo.size := by omega
    simp only [parse_step, hst, peek_fifo, hpk, if_false]
    split_ifs <;> exact hrd _ hs
  · revert hr
    simp only [parse_step, hst]
    split_ifs with hd
    · intro _; exact decode_size_lt _ _ hd
    · simp
  · revert hr
    simp only [parse_step, hst]
    split_ifs with hd
    · intro _; exact decode_size_lt _ _ hd
    · simp
  · simp only [parse_step, hst]
    split_ifs <;> exact hrd _ hs
  · revert hr
    simp only [parse_step, hst]
    split_ifs
    · intro _
      exact lt_of_le_of_lt (body_read_all_size_le _ _ _ _) (hrd _ hs)
    · simp

theorem parse_loop_total (fuel : Nat) :
    ∀ (p : Parser) (b : Nat) (calls : List PacketEvent), p.fifo.size.toNat < fuel →
      ∃ r, parse_loop fuel p b calls = some r := by
  induction fuel with
  | zero => intro p b calls h; omega
  | succ fuel ih =>
    intro p b calls h
    by_cases hs : p.fifo.size > 0
    · by_cases hr : (parse_step p b).returned = true
      · exact ⟨((parse_step p b).parser, calls ++ (parse_step p b).calls),
          by simp [parse_loop, hs, hr]⟩
      · have hr0 : (parse_step p b).returned = false := by simpa using hr
        have hlt := parse_step_progress p b hs hr0
        obtain ⟨r, hr1⟩ := ih (parse_step p b).parser (parse_step p b).byte
          (calls ++ (parse_step p b).calls) (by omega)
        exact ⟨r, by simp [parse_loop, hs, hr0, hr1]⟩
    · exact ⟨(p, calls), by simp [parse_loop, hs]⟩

theorem parse_uart_total (p : Parser) : ∃ r, parse_uart p = some r :=
  parse_loop_total _ p 0 [] (by omega)

/-! ## Round trips through the parser and the codec -/

/-- C1, evaluated at the demo frame: the frame built for type 5 and body
`[0x10, 0x20, 0x30, 0x40]`, delivered one byte per round to a fresh buffer and
parser, makes `parse_uart` invoke the callback once with type 5 and size 4,
but with body `[0x40, 0x20, 0x30, 0x00]` and not the original body. -/
theorem C1_bytewise_body_not_delivered :
    calls_of (deliver_all (initParser init_fifo)
        (bytewise (build_packet 4 5 (some [0x10, 0x20, 0x30, 0x40])).2.1))
      = some [{ type := 5, data := [0x40, 0x20, 0x30, 0x00], size := 4 }] ∧
    calls_of (deliver_all (initParser init_fifo)
        (bytewise (build_packet 4 5 (some [0x10, 0x20, 0x30, 0x40])).2.1))
      ≠ some [{ type := 5, data := [0x10, 0x20, 0x30, 0x40], size := 4 }] := by
  decide

/-- C2, evaluated at the demo frame: the same frame delivered one byte per
round reports body `[0x40, 0x20, 0x30, 0x00]`, delivered as a single chunk it
reports body `[0x20, 0x30, 0x40, 0x40]`; the two callback sequences differ. -/
theorem C2_chunking_changes_body :
    calls_of (deliver_all (initParser init_fifo)
        (bytewise (build_packet 4 5 (some [0x10, 0x20, 0x30, 0x40])).2.1))
      = some [{ type := 5, data := [0x40, 0x20, 0x30, 0x00], size := 4 }] ∧
    calls_of (deliver_all (initParser init_fifo)
        [(build_packet 4 5 (some [0x10, 0x20, 0x30, 0x40])).2.1])
      = some [{ type := 5, data := [0x20, 0x30, 0x40, 0x40], size := 4 }] ∧
    calls_of (deliver_all (initParser init_fifo)
        (bytewise (build_packet 4 5 (some [0x10, 0x20, 0x30, 0x40])).2.1))
      ≠ calls_of (deliver_all (initParser init_fifo)
        [(build_packet 4 5 (some [0x10, 0x20, 0x30, 0x40])).2.1]) := by
  decide

/-- C3, evaluated at `v = 130`: `encode_variable_length` produces the two
bytes `[2, 1]`, whose first byte has its high bit clear, so
`decode_variable_length` on a buffer holding exactly those bytes succeeds
with value 2 after consuming one byte only (one byte is left). -/
theorem C3_two_byte_encoding_decodes_wrong :
    encode_variable_length 130 = [2, 1] ∧
    (decode_variable_length (fifo_of (encode_variable_length 130)) 0).1 = 0 ∧
    (decode_variable_length (fifo_of (encode_variable_length 130)) 0).2.1 = 2 ∧
    (decode_variable_length (fifo_of (encode_variable_length 130)) 0).2.1 ≠ 130 ∧
    (fifo_of (encode_variable_length 130)).size = 2 ∧
    (decode_variable_length (fifo_of (encode_variable_length 130)) 0).2.2.size = 1 := by
  decide

/-- C4: for every `v < 128`, `encode_variable_length v` is the single byte
`v`, and on every buffer (satisfying the invariant) whose content starts with
that encoding, `decode_variable_length` returns 0 with value `v` and consumes
exactly one byte: the buffer afterwards is the old one with one byte taken
from the front, and its content is the rest. -/
theorem C4_codec_roundtrip_one_byte (v : Nat) (hv : v < 128) (fifo : FIFO_Buffer)
    (rest : List Nat) (value : Nat) (hinv : FifoInv fifo)
    (hc : contents fifo = encode_variable_length v ++ rest) :
    encode_variable_length v = [v] ∧
      decode_variable_length fifo value = (0, v, consumed fifo 1) ∧
      (consumed fifo 1).size = fifo.size - 1 ∧
      contents (consumed fifo 1) = rest := by
  have henc : encode_variable_length v = [v] := by
    have h7 : v &&& 0x7F = v % 2 ^ 7 := Nat.and_pow_two_sub_one_eq_mod v 7
    simp only [encode_variable_length, hv, if_true, h7]
    have : v % 2 ^ 7 % 256 = v := by omega
    rw [this]
  rw [henc] at hc
  have hs : fifo.size ≠ 0 := by
    intro h0
    have := congrArg List.length hc
    simp [contents_length, h0] at this
  have hcons := read_fifo_contents fifo hinv hs
  rw [hc] at hcons
  have hhead : fifo.buffer fifo.head = v := by
    have := List.head_eq_of_cons_eq hcons
    exact this.symm
  have htail : contents (consumed fifo 1) = rest := by
    have := List.tail_eq_of_cons_eq hcons
    exact this.symm
  refine ⟨henc, ?_, rfl, htail⟩
  rw [decode_one_byte fifo value hs hinv.2.2.1 (by omega), hhead]

/-- Witness for C4 at `v = 100` on a buffer holding `[100, 7]`. -/
theorem C4_codec_roundtrip_one_byte_witness :
    encode_variable_length 100 = [100] ∧
      decode_variable_length (fifo_of [100, 7]) 0 = (0, 100, consumed (fifo_of [100, 7]) 1) ∧
      (consumed (fifo_of [100, 7]) 1).size = (fifo_of [100, 7]).size - 1 ∧
      contents (consumed (fifo_of [100, 7]) 1) = [7] :=
  C4_codec_roundtrip_one_byte 100 (by decide) (fifo_of [100, 7]) [7] 0 (by decide) (by decide)


/-! ## Ring buffer contract -/

/-- C5: for all byte sequences `x` and `y` with `|x| + |y| ≤ 2048`, after
`init_fifo` both `write_fifo x` and `write_fifo y` return 0, the next
`|x| + |y|` calls of `read_fifo` all succeed and return `x` followed by `y`
in order, and then the buffer is empty: a further `read_fifo` returns -1. -/
theorem C5_fifo_order (x y : List Nat) (h : x.length + y.length ≤ 2048) :
    (write_fifo init_fifo x x.length).1 = 0 ∧
      (write_fifo (write_fifo init_fifo x x.length).2 y y.length).1 = 0 ∧
      ∃ g, read_n (x.length + y.length)
            (write_fifo (write_fifo init_fifo x x.length).2 y y.length).2
          = some (x ++ y, g) ∧
        g.size = 0 ∧ ∀ b, (read_fifo g b).1 = -1 := by
  have hx := write_fifo_ok init_fifo x x.length fifoInv_init (by omega)
    (by simp only [init_fifo]; omega)
  obtain ⟨hx1, hxi, -, hxs, -, hxc⟩ := hx
  have hxs0 : (write_fifo init_fifo x x.length).2.size = x.length := by
    rw [hxs]; simp [init_fifo]
  have hy := write_fifo_ok (write_fifo init_fifo x x.length).2 y y.length hxi (by omega)
    (by rw [hxs0]; omega)
  obtain ⟨hy1, hyi, -, hys, -, hyc⟩ := hy
  have hxc0 : contents (write_fifo init_fifo x x.length).2 = x := by
    rw [hxc]
    simp [contents, init_fifo, memcpy_bytes_self]
  have hyc0 : contents (write_fifo (write_fifo init_fifo x x.length).2 y y.length).2
      = x ++ y := by
    rw [hyc, hxc0]
    simp [memcpy_bytes_self]
  obtain ⟨g, hg, -, hgs, -⟩ := read_n_spec (x.length + y.length) _ hyi
    (by rw [hys, hxs0]; push_cast; omega)
  refine ⟨hx1, hy1, g, ?_, ?_, ?_⟩
  · rw [hg, hyc0]
    simp
  · rw [hgs, hys, hxs0]; push_cast; omega
  · intro b
    rw [read_fifo_empty g b (by rw [hgs, hys, hxs0]; push_cast; omega)]

/-- Witness for C5 with `x = [1, 2]` and `y = [3]`. -/
theorem C5_fifo_order_witness :
    (write_fifo init_fifo [1, 2] 2).1 = 0 ∧
      (write_fifo (write_fifo init_fifo [1, 2] 2).2 [3] 1).1 = 0 ∧
      ∃ g, read_n 3 (write_fifo (write_fifo init_fifo [1, 2] 2).2 [3] 1).2
          = some ([1, 2, 3], g) ∧
        g.size = 0 ∧ ∀ b, (read_fifo g b).1 = -1 :=
  C5_fifo_order [1, 2] [3] (by decide)

/-- C6: for every buffer satisfying the invariant and every `length ≥ 0`,
`write_fifo` returns -1 exactly when `length > 2048 - size`, and then the
buffer (head, tail, size, every stored byte) is unchanged; otherwise it
returns 0, `size` grows by exactly `length`, `tail` advances by `length`
modulo 2048, `head` is unchanged and the whole chunk is appended to the
content. -/
theorem C6_write_all_or_nothing (f : FIFO_Buffer) (data : List Nat) (length : Int)
    (hinv : FifoInv f) (hlen : 0 ≤ length) :
    ((write_fifo f data length).1 = -1 ↔ length > 2048 - f.size) ∧
      ((write_fifo f data length).1 = -1 → (write_fifo f data length).2 = f) ∧
      ((write_fifo f data length).1 ≠ -1 →
        (write_fifo f data length).1 = 0 ∧
        (write_fifo f data length).2.size = f.size + length ∧
        (write_fifo f data length).2.tail = (f.tail + length) % 2048 ∧
        (write_fifo f data length).2.head = f.head ∧
        contents (write_fifo f data length).2
          = contents f ++ memcpy_bytes data length.toNat) := by
  by_cases hfit : length > 2048 - f.size
  · rw [write_fifo_fail f data length hfit]
    simp [hfit]
  · obtain ⟨h1, -, hh, hs, ht, hc⟩ := write_fifo_ok f data length hinv hlen (by omega)
    refine ⟨?_, ?_, ?_⟩
    · rw [h1]; simp [hfit]
    · rw [h1]; intro hcontra; simp at hcontra
    · intro _
      exact ⟨h1, hs, ht, hh, hc⟩

/-- Witness for C6: three bytes written to a buffer that already holds two. -/
theorem C6_write_all_or_nothing_witness :
    ((write_fifo (fifo_of [1, 2]) [7, 8, 9] 3).1 = -1 ↔ (3 : Int) > 2048 - (fifo_of [1, 2]).size) ∧
      ((write_fifo (fifo_of [1, 2]) [7, 8, 9] 3).1 = -1 →
        (write_fifo (fifo_of [1, 2]) [7, 8, 9] 3).2 = fifo_of [1, 2]) ∧
      ((write_fifo (fifo_of [1, 2]) [7, 8, 9] 3).1 ≠ -1 →
        (write_fifo (fifo_of [1, 2]) [7, 8, 9] 3).1 = 0 ∧
        (write_fifo (fifo_of [1, 2]) [7, 8, 9] 3).2.size = (fifo_of [1, 2]).size + 3 ∧
        (write_fifo (fifo_of [1, 2]) [7, 8, 9] 3).2.tail = ((fifo_of [1, 2]).tail + 3) % 2048 ∧
        (write_fifo (fifo_of [1, 2]) [7, 8, 9] 3).2.head = (fifo_of [1, 2]).head ∧
        contents (write_fifo (fifo_of [1, 2]) [7, 8, 9] 3).2
          = contents (fifo_of [1, 2]) ++ memcpy_bytes [7, 8, 9] (3 : Int).toNat) :=
  C6_write_all_or_nothing (fifo_of [1, 2]) [7, 8, 9] 3 (by decide) (by decide)

/-- C7: the ring-buffer invariant (`0 ≤ size ≤ 2048`, `0 ≤ head < 2048`,
`0 ≤ tail < 2048`, `tail = (head + size) mod 2048`) holds after `init_fifo`
and, from any buffer that satisfies it, holds after `write_fifo` with any
`length ≥ 0` (success or failure), after `read_fifo`, after `peek_fifo`, and
after `decode_variable_length` on every path, the push-back path included. -/
theorem C7_invariant_preserved (f : FIFO_Buffer) (data : List Nat) (length index : Int)
    (byte value : Nat) (hinv : FifoInv f) (hlen : 0 ≤ length) :
    FifoInv init_fifo ∧
      FifoInv (write_fifo f data length).2 ∧
      FifoInv (read_fifo f byte).2.2 ∧
      FifoInv (peek_fifo f index byte).2.2 ∧
      FifoInv (decode_variable_length f value).2.2 := by
  refine ⟨fifoInv_init, fifoInv_write f data length hinv hlen, fifoInv_read f byte hinv, ?_,
    fifoInv_decode f value hinv⟩
  unfold peek_fifo
  split <;> exact hinv

/-- Witness for C7 on a buffer holding the single byte `0x85`, on which
`decode_variable_length` takes the push-back path. -/
theorem C7_invariant_preserved_witness :
    FifoInv init_fifo ∧
      FifoInv (write_fifo (fifo_of [0x85]) [1, 2] 2).2 ∧
      FifoInv (read_fifo (fifo_of [0x85]) 0).2.2 ∧
      FifoInv (peek_fifo (fifo_of [0x85]) 0 0).2.2 ∧
      FifoInv (decode_variable_length (fifo_of [0x85]) 0).2.2 :=
  C7_invariant_preserved (fifo_of [0x85]) [1, 2] 2 0 0 0 (by decide) (by decide)


/-! ## Variable-length decoding -/

theorem parse_uart_header_suspends (p : Parser) (hs : p.fifo.size = 1)
    (hh : 0 ≤ p.fifo.head) (hh2 : p.fifo.head < 2048)
    (hb : 128 ≤ p.fifo.buffer p.fifo.head)
    (hst : p.state = STATE_HEADER_SIZE ∨ p.state = STATE_HEADER_TYPE) :
    parse_uart p = some (p, []) := by
  have hd := decode_push_back p.fifo 0 hs hh hh2 hb
  have hpos : p.fifo.size > 0 := by omega
  have hfuel : p.fifo.size.toNat + 1 = 1 + 1 := by omega
  rcases hst with hst | hst
  · simp [parse_uart, hfuel, parse_loop, hpos, parse_step, hst, hd]
    rw [← hst]
  · simp [parse_uart, hfuel, parse_loop, hpos, parse_step, hst, hd]
    rw [← hst]

/-- C8: for every parser whose buffer satisfies the invariant, a failing
`decode_variable_length` (return code -1) leaves the buffer exactly as it
was (head, tail, size and stored bytes). In particular, when the buffer
holds a single byte `≥ 128` the call fails, that byte is still the next one
`read_fifo` returns, and `parse_uart` in `STATE_HEADER_SIZE` or
`STATE_HEADER_TYPE` returns with the parser (its fields and its buffer)
unchanged and no callback invocation. -/
theorem C8_decode_rollback (p : Parser) (value : Nat) (hinv : FifoInv p.fifo) :
    ((decode_variable_length p.fifo value).1 = -1 →
        (decode_variable_length p.fifo value).2.2 = p.fifo) ∧
      (p.fifo.size = 1 → 128 ≤ p.fifo.buffer p.fifo.head →
        (decode_variable_length p.fifo value).1 = -1 ∧
        (read_fifo (decode_variable_length p.fifo value).2.2 0).1 = 0 ∧
        (read_fifo (decode_variable_length p.fifo value).2.2 0).2.1
          = p.fifo.buffer p.fifo.head ∧
        (p.state = STATE_HEADER_SIZE ∨ p.state = STATE_HEADER_TYPE →
          parse_uart p = some (p, []))) := by
  obtain ⟨hs0, hs1, hh0, hh1, ht0, ht1, ht⟩ := hinv
  constructor
  · intro hfail
    by_cases hs : p.fifo.size = 0
    · rw [decode_empty p.fifo value hs]
    · by_cases hb : p.fifo.buffer p.fifo.head < 128
      · rw [decode_one_byte p.fifo value hs hh0 hb] at hfail
        simp at hfail
      · by_cases hone : p.fifo.size = 1
        · rw [decode_push_back p.fifo value hone hh0 hh1 (by omega)]
        · rw [decode_two_bytes p.fifo value hs hone hh0 (by omega)] at hfail
          simp at hfail
  · intro hone hb
    have hne : p.fifo.size ≠ 0 := by omega
    rw [decode_push_back p.fifo value hone hh0 hh1 hb]
    refine ⟨rfl, ?_, ?_, ?_⟩
    · rw [read_fifo_nonempty p.fifo 0 hne hh0]
    · rw [read_fifo_nonempty p.fifo 0 hne hh0]
    · exact parse_uart_header_suspends p hone hh0 hh1 hb

/-- Witness for C8: a parser waiting for the size field with the single byte
`0x85` buffered. -/
theorem C8_decode_rollback_witness :
    ((decode_variable_length (fifo_of [0x85]) 0).1 = -1 →
        (decode_variable_length (fifo_of [0x85]) 0).2.2 = fifo_of [0x85]) ∧
      ((fifo_of [0x85]).size = 1 → 128 ≤ (fifo_of [0x85]).buffer (fifo_of [0x85]).head →
        (decode_variable_length (fifo_of [0x85]) 0).1 = -1 ∧
        (read_fifo (decode_variable_length (fifo_of [0x85]) 0).2.2 0).1 = 0 ∧
        (read_fifo (decode_variable_length (fifo_of [0x85]) 0).2.2 0).2.1
          = (fifo_of [0x85]).buffer (fifo_of [0x85]).head ∧
        (STATE_HEADER_SIZE = STATE_HEADER_SIZE ∨ STATE_HEADER_SIZE = STATE_HEADER_TYPE →
          parse_uart { initParser (fifo_of [0x85]) with state := STATE_HEADER_SIZE }
            = some ({ initParser (fifo_of [0x85]) with state := STATE_HEADER_SIZE }, []))) :=
  C8_decode_rollback { initParser (fifo_of [0x85]) with state := STATE_HEADER_SIZE } 0
    (by decide)

/-- C9: for every buffer satisfying the invariant and holding well-typed
bytes, with `b1` the byte at `head` and `b2` the byte at `(head + 1) mod 2048`:
`decode_variable_length` returns 0 exactly when (`size ≥ 1` and `b1 < 128`)
or `size ≥ 2`, and -1 otherwise; on success with `b1 < 128` the value is `b1`
and exactly one byte is consumed; on success with `b1 ≥ 128` the value is
`(b1 mod 128) + b2 * 128` and exactly two bytes are consumed; the value is at
most 32767. Failure therefore only ever comes from missing bytes. -/
theorem C9_decode_semantics (f : FIFO_Buffer) (value : Nat) (hinv : FifoInv f)
    (hbytes : ByteBuffer f) :
    ((decode_variable_length f value).1 = 0 ↔
        (1 ≤ f.size ∧ f.buffer f.head < 128) ∨ 2 ≤ f.size) ∧
      ((decode_variable_length f value).1 ≠ 0 → (decode_variable_length f value).1 = -1) ∧
      ((decode_variable_length f value).1 = 0 → f.buffer f.head < 128 →
        (decode_variable_length f value).2.1 = f.buffer f.head ∧
        (decode_variable_length f value).2.2 = consumed f 1) ∧
      ((decode_variable_length f value).1 = 0 → 128 ≤ f.buffer f.head →
        (decode_variable_length f value).2.1
          = f.buffer f.head % 128 + f.buffer ((f.head + 1) % 2048) * 128 ∧
        (decode_variable_length f value).2.2 = consumed f 2) ∧
      ((decode_variable_length f value).1 = 0 →
        (decode_variable_length f value).2.1 ≤ 32767) := by
  obtain ⟨hs0, hs1, hh0, hh1, ht0, ht1, ht⟩ := hinv
  have hb1 := hbytes f.head
  have hb2 := hbytes ((f.head + 1) % 2048)
  by_cases hs : f.size = 0
  · rw [decode_empty f value hs]
    dsimp only
    refine ⟨⟨fun h => by omega, fun h => by omega⟩, fun _ => rfl, fun h => by omega,
      fun h => by omega, fun h => by omega⟩
  · by_cases hb : f.buffer f.head < 128
    · rw [decode_one_byte f value hs hh0 hb]
      dsimp only
      refine ⟨⟨fun _ => Or.inl ⟨by omega, hb⟩, fun _ => rfl⟩, fun h => absurd rfl h,
        fun _ _ => ⟨rfl, rfl⟩, fun _ h => absurd hb (by omega), fun _ => by omega⟩
    · by_cases hone : f.size = 1
      · rw [decode_push_back f value hone hh0 hh1 (by omega)]
        dsimp only
        refine ⟨⟨fun h => by omega, fun h => by omega⟩, fun _ => rfl, fun h => by omega,
          fun h => by omega, fun h => by omega⟩
      · rw [decode_two_bytes f value hs hone hh0 (by omega)]
        have hsh : f.buffer ((f.head + 1) % 2048) <<< 7
            = f.buffer ((f.head + 1) % 2048) * 128 := by
          rw [Nat.shiftLeft_eq]
        rw [hsh]
        dsimp only
        refine ⟨⟨fun _ => Or.inr (by omega), fun _ => rfl⟩, fun h => absurd rfl h,
          fun _ h => absurd h hb, fun _ _ => ⟨by omega, rfl⟩, fun _ => by omega⟩

theorem byteBuffer_fifo_of_two (a b : Nat) (ha : a < 256) (hb : b < 256) :
    ByteBuffer (fifo_of [a, b]) := by
  intro p
  simp only [fifo_of, write_fifo, write_loop, init_fifo, MAX_FIFO_SIZE, List.length_cons,
    List.length_nil]
  simp
  split_ifs <;> omega

/-- Witness for C9 on a buffer holding the two-byte field `[0x85, 0x03]`. -/
theorem C9_decode_semantics_witness :
    ((decode_variable_length (fifo_of [0x85, 0x03]) 0).1 = 0 ↔
        (1 ≤ (fifo_of [0x85, 0x03]).size ∧
          (fifo_of [0x85, 0x03]).buffer (fifo_of [0x85, 0x03]).head < 128) ∨
        2 ≤ (fifo_of [0x85, 0x03]).size) ∧
      ((decode_variable_length (fifo_of [0x85, 0x03]) 0).1 ≠ 0 →
        (decode_variable_length (fifo_of [0x85, 0x03]) 0).1 = -1) ∧
      ((decode_variable_length (fifo_of [0x85, 0x03]) 0).1 = 0 →
        (fifo_of [0x85, 0x03]).buffer (fifo_of [0x85, 0x03]).head < 128 →
        (decode_variable_length (fifo_of [0x85, 0x03]) 0).2.1
          = (fifo_of [0x85, 0x03]).buffer (fifo_of [0x85, 0x03]).head ∧
        (decode_variable_length (fifo_of [0x85, 0x03]) 0).2.2
          = consumed (fifo_of [0x85, 0x03]) 1) ∧
      ((decode_variable_length (fifo_of [0x85, 0x03]) 0).1 = 0 →
        128 ≤ (fifo_of [0x85, 0x03]).buffer (fifo_of [0x85, 0x03]).head →
        (decode_variable_length (fifo_of [0x85, 0x03]) 0).2.1
          = (fifo_of [0x85, 0x03]).buffer (fifo_of [0x85, 0x03]).head % 128
            + (fifo_of [0x85, 0x03]).buffer (((fifo_of [0x85, 0x03]).head + 1) % 2048) * 128 ∧
        (decode_variable_length (fifo_of [0x85, 0x03]) 0).2.2
          = consumed (fifo_of [0x85, 0x03]) 2) ∧
      ((decode_variable_length (fifo_of [0x85, 0x03]) 0).1 = 0 →
        (decode_variable_length (fifo_of [0x85, 0x03]) 0).2.1 ≤ 32767) :=
  C9_decode_semantics (fifo_of [0x85, 0x03]) 0 (by decide)
    (byteBuffer_fifo_of_two 0x85 0x03 (by decide) (by decide))


/-! ## Frame builder layout -/

/-- C10 as stated fails at `data_size = 4294967295` (type 0, a body of that
many zero bytes): the header takes 7 bytes, `pos += data_size` wraps modulo
`2^32`, and the reported `*packet_length` is 6, not
`3 + 2 + 1 + 1 + 4294967295`. -/
theorem C10_reported_length_wraps :
    (List.replicate 4294967295 0).length = 4294967295 ∧
    (build_packet 4294967295 0 (some (List.replicate 4294967295 0))).2.2 = 6 ∧
    (build_packet 4294967295 0 (some (List.replicate 4294967295 0))).2.2 ≠
      3 + (encode_variable_length 4294967295).length + (encode_variable_length 0).length
        + 1 + 4294967295 := by
  have h1 : (encode_variable_length 4294967295).length = 2 := by
    rw [encode_length]; decide
  have h2 : (encode_variable_length 0).length = 1 := by
    rw [encode_length]; decide
  have h3 : (build_packet 4294967295 0 (some (List.replicate 4294967295 0))).2.2 = 6 := by
    simp only [build_packet, h1, h2]
    rw [if_pos (by decide)]
  refine ⟨List.length_replicate _ _, h3, ?_⟩
  rw [h3, h1, h2]
  decide

/-- C10, amended: for every `data_size`, every `type` and every non-null body
of `data_size` bytes, `build_packet` returns 0 and writes exactly
`[0xAA, 0xBB, 0xCC] ++ encode(data_size) ++ encode(type) ++ [c] ++ body`, with
`c` the sum modulo 256 of the encoded size and type bytes; the reported
`*packet_length` is `3 + |encode(data_size)| + |encode(type)| + 1 + data_size`
reduced modulo `2^32`, hence equal to that sum whenever the sum is below
`2^32`. -/
theorem C10_build_packet_layout (data_size type : Nat) (body : List Nat)
    (hlen : body.length = data_size) :
    (build_packet data_size type (some body)).1 = 0 ∧
      (build_packet data_size type (some body)).2.1 =
        [0xAA, 0xBB, 0xCC] ++ encode_variable_length data_size ++ encode_variable_length type
          ++ [(encode_variable_length data_size ++ encode_variable_length type).sum % 256]
          ++ body ∧
      (build_packet data_size type (some body)).2.2 =
        (3 + (encode_variable_length data_size).length + (encode_variable_length type).length
          + 1 + data_size) % 4294967296 ∧
      (3 + (encode_variable_length data_size).length + (encode_variable_length type).length
          + 1 + data_size < 4294967296 →
        (build_packet data_size type (some body)).2.2 =
          3 + (encode_variable_length data_size).length
            + (encode_variable_length type).length + 1 + data_size) := by
  subst hlen
  have hdrop : (SYNC_SEQUENCE ++ encode_variable_length body.length
        ++ encode_variable_length type).drop 3
      = encode_variable_length body.length ++ encode_variable_length type := by
    simp [SYNC_SEQUENCE]
  have hl1 := encode_length body.length
  have hl2 := encode_length type
  have hbound : 3 + (encode_variable_length body.length).length
      + (encode_variable_length type).length + 1 < 4294967296 := by
    rw [hl1, hl2]; split <;> split <;> decide
  by_cases h0 : body.length > 0
  · have hbp : build_packet body.length type (some body) =
        (0, SYNC_SEQUENCE ++ encode_variable_length body.length ++ encode_variable_length type
            ++ [(encode_variable_length body.length ++ encode_variable_length type).sum % 256]
            ++ body,
          (3 + (encode_variable_length body.length).length
            + (encode_variable_length type).length + 1 + body.length) % 4294967296) := by
      simp only [build_packet, h0, if_true, hdrop, header_checksum_loop_eq, memcpy_bytes_self]
    rw [hbp]
    exact ⟨rfl, rfl, rfl, fun hlt => Nat.mod_eq_of_lt hlt⟩
  · have hnil : body = [] := List.length_eq_zero.mp (by omega)
    subst hnil
    have hbp : build_packet 0 type (some []) =
        (0, SYNC_SEQUENCE ++ encode_variable_length 0 ++ encode_variable_length type
            ++ [(encode_variable_length 0 ++ encode_variable_length type).sum % 256],
          3 + (encode_variable_length 0).length
            + (encode_variable_length type).length + 1) := by
      have hd0 : (SYNC_SEQUENCE ++ encode_variable_length 0
          ++ encode_variable_length type).drop 3
          = encode_variable_length 0 ++ encode_variable_length type := hdrop
      simp only [build_packet, gt_iff_lt, Nat.lt_irrefl, if_false, hd0,
        header_checksum_loop_eq]
    simp only [List.length_nil] at hbound ⊢
    rw [hbp]
    refine ⟨rfl, ?_, ?_, fun _ => rfl⟩
    · simp [SYNC_SEQUENCE]
    · exact (Nat.mod_eq_of_lt hbound).symm

/-- Witness for C10 (amended) at the demo frame: size 4, type 5. -/
theorem C10_build_packet_layout_witness :
    (build_packet 4 5 (some [0x10, 0x20, 0x30, 0x40])).1 = 0 ∧
      (build_packet 4 5 (some [0x10, 0x20, 0x30, 0x40])).2.1 =
        [0xAA, 0xBB, 0xCC] ++ encode_variable_length 4 ++ encode_variable_length 5
          ++ [(encode_variable_length 4 ++ encode_variable_length 5).sum % 256]
          ++ [0x10, 0x20, 0x30, 0x40] ∧
      (build_packet 4 5 (some [0x10, 0x20, 0x30, 0x40])).2.2 =
        (3 + (encode_variable_length 4).length + (encode_variable_length 5).length
          + 1 + 4) % 4294967296 ∧
      (3 + (encode_variable_length 4).length + (encode_variable_length 5).length
          + 1 + 4 < 4294967296 →
        (build_packet 4 5 (some [0x10, 0x20, 0x30, 0x40])).2.2 =
          3 + (encode_variable_length 4).length + (encode_variable_length 5).length + 1 + 4) :=
  C10_build_packet_layout 4 5 [0x10, 0x20, 0x30, 0x40] (by decide)


/-! ## The header checksum state -/

/-- C11: for every parser in `STATE_HEADER_CHECKSUM` whose buffer satisfies the
invariant and is non-empty, one loop iteration consumes exactly one byte `r`
(the byte at `head`) and does not return; (i) if `r` differs from the
accumulated checksum there is no callback and the state becomes `STATE_SYNC`;
(ii) if `r` matches and `data_size > 1000` there is no callback and the state
becomes `STATE_SYNC`; (iii) if `r` matches and `data_size = 0` the callback
is invoked once with the parser's type and length 0 and the state becomes
`STATE_SYNC`; (iv) otherwise there is no callback, `body_bytes_read` becomes 0
and the state becomes `STATE_BODY`. -/
theorem C11_header_checksum_transition (p : Parser) (byte : Nat)
    (hst : p.state = STATE_HEADER_CHECKSUM) (hinv : FifoInv p.fifo) (hne : 0 < p.fifo.size) :
    (parse_step p byte).parser.fifo = consumed p.fifo 1 ∧
      (parse_step p byte).parser.fifo.size = p.fifo.size - 1 ∧
      (parse_step p byte).returned = false ∧
      (p.fifo.buffer p.fifo.head ≠ p.calculated_header_checksum →
        (parse_step p byte).calls = [] ∧ (parse_step p byte).parser.state = STATE_SYNC) ∧
      (p.fifo.buffer p.fifo.head = p.calculated_header_checksum → p.data_size > 1000 →
        (parse_step p byte).calls = [] ∧ (parse_step p byte).parser.state = STATE_SYNC) ∧
      (p.fifo.buffer p.fifo.head = p.calculated_header_checksum → p.data_size = 0 →
        (parse_step p byte).calls = [{ type := p.type, data := [], size := 0 }] ∧
        (parse_step p byte).parser.state = STATE_SYNC) ∧
      (p.fifo.buffer p.fifo.head = p.calculated_header_checksum →
        0 < p.data_size → p.data_size ≤ 1000 →
        (parse_step p byte).calls = [] ∧ (parse_step p byte).parser.body_bytes_read = 0 ∧
        (parse_step p byte).parser.state = STATE_BODY) := by
  have hs : p.fifo.size ≠ 0 := by omega
  have hr := read_fifo_nonempty p.fifo byte hs hinv.2.2.1
  refine ⟨?_, ?_, ?_, ?_, ?_, ?_, ?_⟩
  · simp only [parse_step, hst, hr]
    split_ifs <;> rfl
  · simp only [parse_step, hst, hr]
    split_ifs <;> rfl
  · simp only [parse_step, hst, hr]
    split_ifs <;> rfl
  · intro hneq
    have hneq2 : ¬ p.calculated_header_checksum = p.fifo.buffer p.fifo.head := fun h => hneq h.symm
    simp [parse_step, hst, hr, hneq2]
  · intro heq hbig
    have hbig2 : p.data_size > MAX_PACKET_SIZE := hbig
    simp [parse_step, hst, hr, heq, hbig2]
  · intro heq hz
    simp [parse_step, hst, hr, heq, hz, callback_event]
  · intro heq hpos hle
    have h1 : ¬ p.data_size > MAX_PACKET_SIZE := by simp only [MAX_PACKET_SIZE]; omega
    have h2 : p.data_size ≠ 0 := by omega
    simp [parse_step, hst, hr, heq, h1, h2]

/-- Witness for C11: a parser that has read size 4 and type 5 (accumulated
checksum 9) and finds the checksum byte 9 buffered. -/
theorem C11_header_checksum_transition_witness :
    (parse_step { initParser (fifo_of [9]) with
          state := STATE_HEADER_CHECKSUM, data_size := 4, type := 5,
          calculated_header_checksum := 9 } 0).calls = [] ∧
      (parse_step { initParser (fifo_of [9]) with
          state := STATE_HEADER_CHECKSUM, data_size := 4, type := 5,
          calculated_header_checksum := 9 } 0).parser.body_bytes_read = 0 ∧
      (parse_step { initParser (fifo_of [9]) with
          state := STATE_HEADER_CHECKSUM, data_size := 4, type := 5,
          calculated_header_checksum := 9 } 0).parser.state = STATE_BODY :=
  (C11_header_checksum_transition
    { initParser (fifo_of [9]) with
      state := STATE_HEADER_CHECKSUM, data_size := 4, type := 5,
      calculated_header_checksum := 9 } 0 rfl (by decide) (by decide)).2.2.2.2.2.2
    (by decide) (by decide) (by decide)

/-- C12, evaluated at the stream `AA BB CC 80 01 05 c` (size field `80 01`,
type field `05`): the raw header bytes sum to `0x86`, but the parser
accumulates the low byte of the decoded values (`128 + 5 = 0x85`). With
`c = 0x86` it takes the mismatch branch (state `STATE_SYNC`, accumulated
`0x85`, received `0x86`); with `c = 0x85` it accepts the header and enters
`STATE_BODY` with `data_size = 128`. -/
theorem C12_checksum_not_over_raw_bytes :
    (0x80 + 0x01 + 0x05) % 256 = 0x86 ∧
    (deliver (initParser init_fifo) [0xAA, 0xBB, 0xCC, 0x80, 0x01, 0x05, 0x86]).map
        (fun r => r.1.state) = some STATE_SYNC ∧
    (deliver (initParser init_fifo) [0xAA, 0xBB, 0xCC, 0x80, 0x01, 0x05, 0x86]).map
        (fun r => r.1.calculated_header_checksum) = some 0x85 ∧
    (deliver (initParser init_fifo) [0xAA, 0xBB, 0xCC, 0x80, 0x01, 0x05, 0x86]).map
        (fun r => r.1.header_checksum) = some 0x86 ∧
    (deliver (initParser init_fifo) [0xAA, 0xBB, 0xCC, 0x80, 0x01, 0x05, 0x85]).map
        (fun r => r.1.state) = some STATE_BODY ∧
    (deliver (initParser init_fifo) [0xAA, 0xBB, 0xCC, 0x80, 0x01, 0x05, 0x85]).map
        (fun r => r.1.data_size) = some 128 := by
  decide


/-! ## Lookahead and return codes -/

theorem peek_fifo_ok (f : FIFO_Buffer) (index : Int) (byte : Nat) (hh : 0 ≤ f.head)
    (h0 : 0 ≤ index) (hlt : index < f.size) :
    peek_fifo f index byte = (0, f.buffer ((f.head + index) % 2048), f) := by
  have hn : ¬ index ≥ f.size := by omega
  have ht : (f.head + index).tmod MAX_FIFO_SIZE = (f.head + index) % 2048 :=
    tmod_cap _ (by omega)
  simp [peek_fifo, hn, ht]

theorem contents_getElem? (f : FIFO_Buffer) (n : Nat) (hn : (n : Int) < f.size) :
    (contents f)[n]? = some (f.buffer ((f.head + (n : Int)) % 2048)) := by
  have h : n < f.size.toNat := by omega
  simp [contents, List.getElem?_map, List.getElem?_range h]

/-- C16: for every buffer satisfying the invariant and every `index ≥ 0`,
`peek_fifo` fails (returns -1) exactly when `index ≥ size`; when
`index < size` it returns 0, leaves the buffer (head, tail, size, stored
bytes) unchanged and yields the byte at `(head + index) mod 2048`, which is
the last of the `index + 1` bytes that `index + 1` successive `read_fifo`
calls return. -/
theorem C16_peek_lookahead (f : FIFO_Buffer) (index : Int) (byte : Nat)
    (hinv : FifoInv f) (hidx : 0 ≤ index) :
    ((peek_fifo f index byte).1 = -1 ↔ index ≥ f.size) ∧
      (index < f.size →
        (peek_fifo f index byte).1 = 0 ∧
        (peek_fifo f index byte).2.2 = f ∧
        (peek_fifo f index byte).2.1 = f.buffer ((f.head + index) % 2048) ∧
        ∃ bytes g, read_n (index.toNat + 1) f = some (bytes, g) ∧
          bytes.length = index.toNat + 1 ∧
          bytes[index.toNat]? = some (peek_fifo f index byte).2.1) := by
  constructor
  · by_cases h : index ≥ f.size
    · simp [peek_fifo, h]
    · rw [peek_fifo_ok f index byte hinv.2.2.1 hidx (by omega)]
      simp [h]
  · intro hlt
    rw [peek_fifo_ok f index byte hinv.2.2.1 hidx hlt]
    refine ⟨rfl, rfl, rfl, ?_⟩
    obtain ⟨g, hg, -, -, -⟩ := read_n_spec (index.toNat + 1) f hinv (by push_cast; omega)
    refine ⟨_, g, hg, ?_, ?_⟩
    · rw [List.length_take, contents_length]; omega
    · rw [List.getElem?_take, if_pos (by omega), contents_getElem? f index.toNat (by omega)]
      have : ((index.toNat : Nat) : Int) = index := Int.toNat_of_nonneg hidx
      rw [this]

/-- Witness for C16: index 1 on a buffer holding `[7, 8, 9]`. -/
theorem C16_peek_lookahead_witness :
    ((peek_fifo (fifo_of [7, 8, 9]) 1 0).1 = -1 ↔ (1 : Int) ≥ (fifo_of [7, 8, 9]).size) ∧
      ((1 : Int) < (fifo_of [7, 8, 9]).size →
        (peek_fifo (fifo_of [7, 8, 9]) 1 0).1 = 0 ∧
        (peek_fifo (fifo_of [7, 8, 9]) 1 0).2.2 = fifo_of [7, 8, 9] ∧
        (peek_fifo (fifo_of [7, 8, 9]) 1 0).2.1
          = (fifo_of [7, 8, 9]).buffer (((fifo_of [7, 8, 9]).head + 1) % 2048) ∧
        ∃ bytes g, read_n ((1 : Int).toNat + 1) (fifo_of [7, 8, 9]) = some (bytes, g) ∧
          bytes.length = (1 : Int).toNat + 1 ∧
          bytes[(1 : Int).toNat]? = some (peek_fifo (fifo_of [7, 8, 9]) 1 0).2.1) :=
  C16_peek_lookahead (fifo_of [7, 8, 9]) 1 0 (by decide) (by decide)

/-- C17, evaluated: `fifo.h` documents that `write_fifo` returns the number
of bytes written, `read_fifo` 1 on success and 0 on an empty buffer,
`peek_fifo` 1 on success and 0 for an index out of range. The functions
return 0 on success (writing 3 bytes, reading or peeking a buffered byte)
and -1 on failure (reading or peeking an empty buffer). -/
theorem C17_return_codes_differ_from_header :
    (write_fifo init_fifo [1, 2, 3] 3).1 = 0 ∧
    (write_fifo init_fifo [1, 2, 3] 3).1 ≠ 3 ∧
    (read_fifo (fifo_of [1, 2, 3]) 0).1 = 0 ∧
    (read_fifo (fifo_of [1, 2, 3]) 0).1 ≠ 1 ∧
    (read_fifo init_fifo 0).1 = -1 ∧
    (read_fifo init_fifo 0).1 ≠ 0 ∧
    (peek_fifo (fifo_of [1, 2, 3]) 0 0).1 = 0 ∧
    (peek_fifo (fifo_of [1, 2, 3]) 0 0).1 ≠ 1 ∧
    (peek_fifo init_fifo 0 0).1 = -1 ∧
    (peek_fifo init_fifo 0 0).1 ≠ 0 := by
  decide

/-! ## The body state -/

theorem body_read_all_fields (k : Nat) :
    ∀ (i : Nat) (p : Parser) (b : Nat),
      (body_read_all i k p b).1.state = p.state ∧
      (body_read_all i k p b).1.data_size = p.data_size ∧
      (body_read_all i k p b).1.type = p.type ∧
      (body_read_all i k p b).1.body_bytes_read = p.body_bytes_read ∧
      ∀ j : Nat, i + k ≤ j → (body_read_all i k p b).1.body j = p.body j := by
  induction k with
  | zero => intro i p b; simp [body_read_all]
  | succ k ih =>
    intro i p b
    simp only [body_read_all]
    obtain ⟨h1, h2, h3, h4, h5⟩ := ih (i + 1)
      { p with
        fifo := (read_fifo p.fifo b).2.2
        body := fun j => if j = i then (read_fifo p.fifo b).2.1 else p.body j }
      (read_fifo p.fifo b).2.1
    refine ⟨h1, h2, h3, h4, ?_⟩
    intro j hj
    rw [h5 j (by omega)]
    have : j ≠ i := by omega
    simp [this]

theorem body_read_available_fields (k : Nat) :
    ∀ (p : Parser) (b : Nat), p.body_bytes_read + k ≤ 1000 →
      (body_read_available k p b).1.state = p.state ∧
      (body_read_available k p b).1.data_size = p.data_size ∧
      (body_read_available k p b).1.type = p.type ∧
      (body_read_available k p b).1.body_bytes_read = p.body_bytes_read + k ∧
      ∀ j : Nat, p.body_bytes_read + k ≤ j → (body_read_available k p b).1.body j = p.body j := by
  induction k with
  | zero => intro p b _; simp [body_read_available]
  | succ k ih =>
    intro p b hle
    have hlt : p.body_bytes_read < MAX_PACKET_SIZE := by simp only [MAX_PACKET_SIZE]; omega
    have hmod : (p.body_bytes_read + 1) % 4294967296 = p.body_bytes_read + 1 := by omega
    simp only [body_read_available, hlt, if_true, hmod]
    obtain ⟨h1, h2, h3, h4, h5⟩ := ih
      { p with
        fifo := (read_fifo p.fifo b).2.2
        body := fun j => if j = p.body_bytes_read then (read_fifo p.fifo b).2.1 else p.body j
        body_bytes_read := p.body_bytes_read + 1 }
      (read_fifo p.fifo b).2.1 (by simp only; omega)
    refine ⟨h1, h2, h3, by rw [h4]; simp only; omega, ?_⟩
    intro j hj
    rw [h5 j (by simp only; omega)]
    have : j ≠ p.body_bytes_read := by omega
    simp [this]

theorem to_int_to_unsigned (i : Int) (h0 : 0 ≤ i) (h1 : i < 2147483648) :
    to_int (to_unsigned i) = i := by
  simp only [to_int, to_unsigned]
  split_ifs <;> omega

theorem bodyInv_step (p : Parser) (byte : Nat) (h : BodyInv p) :
    BodyInv (parse_step p byte).parser := by
  obtain ⟨hb, hbody⟩ := h
  cases hst : p.state
  · simp only [parse_step, hst]
    split_ifs <;> exact ⟨fun h => by simp_all, hbody⟩
  · simp only [parse_step, hst]
    split_ifs <;> exact ⟨fun h => by simp_all, hbody⟩
  · simp only [parse_step, hst]
    split_ifs <;> exact ⟨fun h => by simp_all, hbody⟩
  · simp only [parse_step, hst]
    split_ifs with h1 h2 h3 h4
    · exact ⟨fun h => by simp at h, hbody⟩
    · exact ⟨fun h => by simp at h, hbody⟩
    · refine ⟨fun _ => ?_, hbody⟩
      simp only [MAX_PACKET_SIZE] at h3
      simp only
      omega
    · exact ⟨fun h => by simp at h, hbody⟩
    · exact ⟨fun h => by simp at h, hbody⟩
  · obtain ⟨hlt, hle⟩ := hb hst
    have hto : to_int (to_unsigned ((p.data_size : Int) - (p.body_bytes_read : Int)))
        = (p.data_size : Int) - (p.body_bytes_read : Int) :=
      to_int_to_unsigned _ (by omega) (by omega)
    simp only [parse_step, hst, hto]
    split_ifs with hav
    · refine ⟨fun h => by simp at h, ?_⟩
      intro j hj
      simp only
      refine ((body_read_all_fields _ _ _ _).2.2.2.2 j (by omega)).trans ?_
      exact hbody j hj
    · have hk : p.body_bytes_read + p.fifo.size.toNat ≤ 1000 := by omega
      obtain ⟨h1, h2, -, h4, h5⟩ := body_read_available_fields p.fifo.size.toNat p byte hk
      refine ⟨fun _ => ?_, ?_⟩
      · simp only
        rw [h2, h4]
        omega
      · intro j hj
        simp only
        rw [h5 j (by omega)]
        exact hbody j hj

theorem bodyInv_loop (fuel : Nat) :
    ∀ (p : Parser) (b : Nat) (calls : List PacketEvent) (q : Parser) (out : List PacketEvent),
      BodyInv p → parse_loop fuel p b calls = some (q, out) → BodyInv q := by
  induction fuel with
  | zero => intro p b calls q out _ h; simp [parse_loop] at h
  | succ fuel ih =>
    intro p b calls q out hp h
    by_cases hs : p.fifo.size > 0
    · by_cases hr : (parse_step p b).returned = true
      · simp only [parse_loop, hs, hr, if_true, Option.some.injEq, Prod.mk.injEq] at h
        rw [← h.1]
        exact bodyInv_step p b hp
      · have hr0 : (parse_step p b).returned = false := by simpa using hr
        simp only [parse_loop, hs, hr0, if_true] at h
        exact ih _ _ _ q out (bodyInv_step p b hp) (by simpa using h)
    · simp only [parse_loop, hs, if_false, Option.some.injEq, Prod.mk.injEq] at h
      rw [← h.1]
      exact hp

theorem bodyInv_reachable (p : Parser) (h : Reachable p) : BodyInv p := by
  induction h with
  | init => exact ⟨fun h => by simp [initParser] at h, fun j _ => rfl⟩
  | write p data length _ _ ih => exact ih
  | iteration p byte _ _ ih => exact bodyInv_step p byte ih
  | parse p q calls _ hq ih => exact bodyInv_loop _ p 0 [] q calls ih hq

/-- C18: in every state reachable from `init_fifo` + `init_parser` by
`write_fifo` calls with `length ≥ 0`, loop iterations of `parse_uart` and
complete `parse_uart` calls, a parser in `STATE_BODY` has
`body_bytes_read < data_size ≤ 1000`; the loop bound `bytes_to_read` of the
completing branch is `data_size - body_bytes_read`, between 1 and 1000, so
that branch writes `body[i]` only for `i < 1000`; the partial branch stores
all buffered bytes, ends with `body_bytes_read` still below `data_size`, and
keeps the state `STATE_BODY`, so its overflow branch (which would set
`STATE_SYNC`) is not taken; no index `≥ 1000` of the body array is ever
changed from its initial 0. -/
theorem C18_body_overflow_unreachable (p : Parser) (byte : Nat) (hreach : Reachable p) :
    (p.state = STATE_BODY → p.body_bytes_read < p.data_size ∧ p.data_size ≤ 1000) ∧
      (p.state = STATE_BODY →
        to_int (to_unsigned ((p.data_size : Int) - (p.body_bytes_read : Int)))
          = (p.data_size : Int) - (p.body_bytes_read : Int) ∧
        0 < (p.data_size : Int) - (p.body_bytes_read : Int) ∧
        (p.data_size : Int) - (p.body_bytes_read : Int) ≤ 1000) ∧
      (∀ j : Nat, 1000 ≤ j → p.body j = 0) ∧
      (p.state = STATE_BODY → 0 < p.fifo.size →
        p.fifo.size < (p.data_size : Int) - (p.body_bytes_read : Int) →
        (parse_step p byte).parser.state = STATE_BODY ∧
        (parse_step p byte).parser.body_bytes_read = p.body_bytes_read + p.fifo.size.toNat ∧
        (parse_step p byte).parser.body_bytes_read < p.data_size) := by
  obtain ⟨hb, hbody⟩ := bodyInv_reachable p hreach
  refine ⟨hb, ?_, hbody, ?_⟩
  · intro hst
    obtain ⟨hlt, hle⟩ := hb hst
    exact ⟨to_int_to_unsigned _ (by omega) (by omega), by omega, by omega⟩
  intro hst hs hpart
  obtain ⟨hlt, hle⟩ := hb hst
  have hto : to_int (to_unsigned ((p.data_size : Int) - (p.body_bytes_read : Int)))
      = (p.data_size : Int) - (p.body_bytes_read : Int) :=
    to_int_to_unsigned _ (by omega) (by omega)
  have hav : ¬ p.fifo.size ≥ (p.data_size : Int) - (p.body_bytes_read : Int) := by omega
  have hk : p.body_bytes_read + p.fifo.size.toNat ≤ 1000 := by omega
  obtain ⟨h1, -, -, h4, -⟩ := body_read_available_fields p.fifo.size.toNat p byte hk
  simp only [parse_step, hst, hto, hav, if_false]
  exact ⟨by rw [h1, hst], h4, by rw [h4]; omega⟩

/-- Witness for C18: the state after the demo frame's header and first two
body bytes have been written and parsed; it is in `STATE_BODY` with 2 of 4
body bytes read. -/
theorem C18_body_overflow_unreachable_witness :
    ((parse_uart { initParser init_fifo with
          fifo := (write_fifo init_fifo [0xAA, 0xBB, 0xCC, 4, 5, 9, 0x10, 0x20] 8).2 }).getD
        (initParser init_fifo, [])).1.state = STATE_BODY ∧
      (((parse_uart { initParser init_fifo with
          fifo := (write_fifo init_fifo [0xAA, 0xBB, 0xCC, 4, 5, 9, 0x10, 0x20] 8).2 }).getD
        (initParser init_fifo, [])).1.body_bytes_read <
       ((parse_uart { initParser init_fifo with
          fifo := (write_fifo init_fifo [0xAA, 0xBB, 0xCC, 4, 5, 9, 0x10, 0x20] 8).2 }).getD
        (initParser init_fifo, [])).1.data_size ∧
       ((parse_uart { initParser init_fifo with
          fifo := (write_fifo init_fifo [0xAA, 0xBB, 0xCC, 4, 5, 9, 0x10, 0x20] 8).2 }).getD
        (initParser init_fifo, [])).1.data_size ≤ 1000) := by
  obtain ⟨r, hr⟩ := parse_uart_total { initParser init_fifo with
    fifo := (write_fifo init_fifo [0xAA, 0xBB, 0xCC, 4, 5, 9, 0x10, 0x20] 8).2 }
  have hst : ((parse_uart { initParser init_fifo with
      fifo := (write_fifo init_fifo [0xAA, 0xBB, 0xCC, 4, 5, 9, 0x10, 0x20] 8).2 }).getD
      (initParser init_fifo, [])).1.state = STATE_BODY := by decide
  rw [hr] at hst ⊢
  exact ⟨hst, (C18_body_overflow_unreachable r.1 0
    (Reachable.parse _ r.1 r.2
      (Reachable.write (initParser init_fifo) [0xAA, 0xBB, 0xCC, 4, 5, 9, 0x10, 0x20] 8
        Reachable.init (by decide)) hr)).1 hst⟩

/-- C19, evaluated at a parser in `STATE_BODY` with `data_size = 2`,
`body_bytes_read = 0` and the bytes `50 60 AA` buffered: two bytes remain to
be read, yet the iteration removes all three bytes (the buffer is empty
afterwards, the `AA` that followed the body is gone) and reports the body
`[0x60, 0xAA]`. -/
theorem C19_body_consumes_one_byte_too_many :
    (fifo_of [0x50, 0x60, 0xAA]).size = 3 ∧
    (parse_step { initParser (fifo_of [0x50, 0x60, 0xAA]) with
        state := STATE_BODY, data_size := 2 } 0).parser.fifo.size = 0 ∧
    (parse_step { initParser (fifo_of [0x50, 0x60, 0xAA]) with
        state := STATE_BODY, data_size := 2 } 0).parser.fifo.size ≠ 3 - 2 ∧
    (parse_step { initParser (fifo_of [0x50, 0x60, 0xAA]) with
        state := STATE_BODY, data_size := 2 } 0).calls
      = [{ type := 0, data := [0x60, 0xAA], size := 2 }] ∧
    (parse_step { initParser (fifo_of [0x50, 0x60, 0xAA]) with
        state := STATE_BODY, data_size := 2 } 0).parser.state = STATE_SYNC := by
  decide

/-! ## Termination -/

theorem parse_step_sync (p : Parser) (byte : Nat) (hst : p.state = STATE_SYNC)
    (hh : 0 ≤ p.fifo.head) (hs : 0 < p.fifo.size) :
    (parse_step p byte).returned = false ∧ (parse_step p byte).calls = [] ∧
      (parse_step p byte).parser.fifo = consumed p.fifo 1 := by
  have hne : p.fifo.size ≠ 0 := by omega
  have hpk := peek_fifo_ok p.fifo 0 byte hh (le_refl 0) hs
  have hrd := fun b => read_fifo_nonempty p.fifo b hne hh
  simp only [parse_step, hst, hpk, hrd]
  split_ifs <;> exact ⟨rfl, rfl, rfl⟩

theorem parse_iterations_le (fuel : Nat) :
    ∀ (p : Parser) (b : Nat), parse_iterations fuel p b ≤ p.fifo.size.toNat := by
  induction fuel with
  | zero => intro p b; simp [parse_iterations]
  | succ fuel ih =>
    intro p b
    by_cases hs : p.fifo.size > 0
    · by_cases hr : (parse_step p b).returned = true
      · simp only [parse_iterations, hs, hr, if_true]; omega
      · have hr0 : (parse_step p b).returned = false := by simpa using hr
        have hlt := parse_step_progress p b hs hr0
        have := ih (parse_step p b).parser (parse_step p b).byte
        simp only [parse_iterations, hs, hr0, if_true]
        simp
        omega
    · simp [parse_iterations, hs]

/-- C20: for every parser whose buffer satisfies the invariant,
`parse_uart` terminates (the loop ends within `size + 1` tests of its
condition); every loop iteration either returns or strictly decreases
`fifo.size`; in `STATE_SYNC` every iteration continues and dequeues exactly
one byte, matching or not; and the loop body runs at most as many times as
there are bytes buffered on entry. -/
theorem C20_drive_loop_terminates (p : Parser) (byte : Nat) (hinv : FifoInv p.fifo) :
    (∃ r, parse_uart p = some r) ∧
      (0 < p.fifo.size →
        (parse_step p byte).returned = true ∨
        (parse_step p byte).parser.fifo.size < p.fifo.size) ∧
      (p.state = STATE_SYNC → 0 < p.fifo.size →
        (parse_step p byte).returned = false ∧
        (parse_step p byte).parser.fifo = consumed p.fifo 1 ∧
        (parse_step p byte).parser.fifo.size = p.fifo.size - 1) ∧
      (∀ fuel, parse_iterations fuel p byte ≤ p.fifo.size.toNat) := by
  refine ⟨parse_uart_total p, ?_, ?_, fun fuel => parse_iterations_le fuel p byte⟩
  · intro hs
    by_cases hr : (parse_step p byte).returned = true
    · exact Or.inl hr
    · exact Or.inr (parse_step_progress p byte hs (by simpa using hr))
  · intro hst hs
    obtain ⟨h1, -, h3⟩ := parse_step_sync p byte hst hinv.2.2.1 hs
    exact ⟨h1, h3, by rw [h3]; rfl⟩

/-- Witness for C20: a fresh parser with the demo frame buffered. -/
theorem C20_drive_loop_terminates_witness :
    (∃ r, parse_uart (initParser (fifo_of [0xAA, 0xBB, 0xCC, 4, 5, 9, 0x10, 0x20, 0x30, 0x40]))
        = some r) ∧
      (∀ fuel, parse_iterations fuel
          (initParser (fifo_of [0xAA, 0xBB, 0xCC, 4, 5, 9, 0x10, 0x20, 0x30, 0x40])) 0
        ≤ (fifo_of [0xAA, 0xBB, 0xCC, 4, 5, 9, 0x10, 0x20, 0x30, 0x40]).size.toNat) :=
  ⟨(C20_drive_loop_terminates
      (initParser (fifo_of [0xAA, 0xBB, 0xCC, 4, 5, 9, 0x10, 0x20, 0x30, 0x40])) 0
      (by decide)).1,
   (C20_drive_loop_terminates
      (initParser (fifo_of [0xAA, 0xBB, 0xCC, 4, 5, 9, 0x10, 0x20, 0x30, 0x40])) 0
      (by decide)).2.2.2⟩


/-! ## Byte-by-byte view of the drive loop -/

theorem parse_loop_fuel (n : Nat) :
    ∀ (m : Nat) (p : Parser) (b : Nat) (c : List PacketEvent),
      p.fifo.size.toNat < n → p.fifo.size.toNat < m →
      parse_loop n p b c = parse_loop m p b c := by
  induction n with
  | zero => intro m p b c h; omega
  | succ n ih =>
    intro m p b c hn hm
    cases m with
    | zero => omega
    | succ m =>
      by_cases hs : p.fifo.size > 0
      · by_cases hr : (parse_step p b).returned = true
        · simp [parse_loop, hs, hr]
        · have hr0 : (parse_step p b).returned = false := by simpa using hr
          have hlt := parse_step_progress p b hs hr0
          simp only [parse_loop, hs, hr0, if_true]
          simp only [Bool.false_eq_true, if_false]
          exact ih m _ _ _ (by omega) (by omega)
      · simp [parse_loop, hs]

theorem parse_uart_eq_drive (p : Parser) : parse_uart p = drive p 0 [] := rfl

theorem drive_done (p : Parser) (b : Nat) (c : List PacketEvent) (h : ¬ p.fifo.size > 0) :
    drive p b c = some (p, c) := by
  simp [drive, parse_loop, h]

theorem drive_continue (p : Parser) (b : Nat) (c : List PacketEvent) (hs : p.fifo.size > 0)
    (hr : (parse_step p b).returned = false) :
    drive p b c = drive (parse_step p b).parser (parse_step p b).byte
      (c ++ (parse_step p b).calls) := by
  have hlt := parse_step_progress p b hs hr
  simp only [drive, parse_loop, hs, hr, if_true, Bool.false_eq_true, if_false]
  exact parse_loop_fuel p.fifo.size.toNat ((parse_step p b).parser.fifo.size.toNat + 1)
    (parse_step p b).parser (parse_step p b).byte (c ++ (parse_step p b).calls)
    (by omega) (by omega)

theorem drive_return (p : Parser) (b : Nat) (c : List PacketEvent) (hs : p.fifo.size > 0)
    (hr : (parse_step p b).returned = true) :
    drive p b c = some ((parse_step p b).parser, c ++ (parse_step p b).calls) := by
  simp [drive, parse_loop, hs, hr]

theorem fifo_of_single (b : Nat) :
    (fifo_of [b]).size = 1 ∧ (fifo_of [b]).head = 0 ∧ (fifo_of [b]).buffer 0 = b := by
  simp [fifo_of, write_fifo, write_loop, init_fifo, MAX_FIFO_SIZE]

theorem step_feed (p : Parser) (byte b : Nat) (rest : List Nat) (hinv : FifoInv p.fifo)
    (hc : contents p.fifo = b :: rest) (hf : feedable p b) :
    (parse_step p byte).parser = { (feed p b).1 with fifo := consumed p.fifo 1 } ∧
      (parse_step p byte).calls = (feed p b).2 ∧
      (parse_step p byte).returned = false := by
  have hs : p.fifo.size ≠ 0 := by
    intro h0
    have := congrArg List.length hc
    simp [contents_length, h0] at this
  have hpos : 0 < p.fifo.size := by have := hinv.1; omega
  have hh := hinv.2.2.1
  have hb : p.fifo.buffer p.fifo.head = b := by
    have := read_fifo_contents p.fifo hinv hs
    rw [hc] at this
    exact (List.head_eq_of_cons_eq this).symm
  obtain ⟨hs1, hh1, hb1⟩ := fifo_of_single b
  have hb1' : (fifo_of [b]).buffer (fifo_of [b]).head = b := by rw [hh1, hb1]
  have hne1 : (fifo_of [b]).size ≠ 0 := by omega
  have hh1' : 0 ≤ (fifo_of [b]).head := by omega
  have hpk := fun x => peek_fifo_ok p.fifo 0 x hh (le_refl 0) hpos
  have hpk1 := fun x => peek_fifo_ok (fifo_of [b]) 0 x hh1' (le_refl 0) (by omega)
  have hrd := fun x => read_fifo_nonempty p.fifo x hs hh
  have hrd1 := fun x => read_fifo_nonempty (fifo_of [b]) x hne1 hh1'
  have e0 : (p.fifo.head + 0) % 2048 = p.fifo.head := by have := hinv.2.2.2.1; omega
  have e1 : ((fifo_of [b]).head + 0) % 2048 = (fifo_of [b]).head := by omega
  obtain ⟨hnb, h128⟩ := hf
  cases hst : p.state
  · simp only [feed, parse_step, hst, hpk, hpk1, hrd, hrd1, e0, e1, hb, hb1']
    split_ifs <;> exact ⟨rfl, rfl, rfl⟩
  · have hlt : b < 128 := h128 (Or.inl hst)
    have hd := decode_one_byte p.fifo 0 hs hh (by omega)
    have hd1 := decode_one_byte (fifo_of [b]) 0 hne1 hh1' (by omega)
    simp only [feed, parse_step, hst, hd, hd1, hb, hb1']
    exact ⟨rfl, rfl, rfl⟩
  · have hlt : b < 128 := h128 (Or.inr hst)
    have hd := decode_one_byte p.fifo 0 hs hh (by omega)
    have hd1 := decode_one_byte (fifo_of [b]) 0 hne1 hh1' (by omega)
    simp only [feed, parse_step, hst, hd, hd1, hb, hb1']
    exact ⟨rfl, rfl, rfl⟩
  · simp only [feed, parse_step, hst, hrd, hrd1, hb, hb1']
    split_ifs <;> exact ⟨rfl, rfl, rfl⟩
  · exact absurd hst hnb


theorem feed_fifo (p : Parser) (f : FIFO_Buffer) (b : Nat) :
    feed { p with fifo := f } b = ({ (feed p b).1 with fifo := f }, (feed p b).2) := rfl

theorem feedable_fifo (p : Parser) (f : FIFO_Buffer) (b : Nat) :
    feedable { p with fifo := f } b ↔ feedable p b := Iff.rfl

theorem feed_all_fifo (l : List Nat) :
    ∀ (p : Parser) (f : FIFO_Buffer),
      feed_all { p with fifo := f } l = ({ (feed_all p l).1 with fifo := f }, (feed_all p l).2) := by
  induction l with
  | nil => intro p f; rfl
  | cons b l ih =>
    intro p f
    simp only [feed_all, feed_fifo]
    rw [ih (feed p b).1 f]

theorem Feedable_fifo (l : List Nat) :
    ∀ (p : Parser) (f : FIFO_Buffer), Feedable { p with fifo := f } l ↔ Feedable p l := by
  induction l with
  | nil => intro p f; exact Iff.rfl
  | cons b l ih =>
    intro p f
    simp only [Feedable, feed_fifo, feedable_fifo]
    rw [ih (feed p b).1 f]

theorem feed_all_append (l1 : List Nat) :
    ∀ (p : Parser) (l2 : List Nat),
      feed_all p (l1 ++ l2) =
        ((feed_all (feed_all p l1).1 l2).1, (feed_all p l1).2 ++ (feed_all (feed_all p l1).1 l2).2) := by
  induction l1 with
  | nil => intro p l2; simp [feed_all]
  | cons b l1 ih =>
    intro p l2
    show feed_all p (b :: (l1 ++ l2)) = _
    simp only [feed_all, ih, List.append_assoc]

theorem Feedable_append (l1 : List Nat) :
    ∀ (p : Parser) (l2 : List Nat),
      Feedable p (l1 ++ l2) ↔ Feedable p l1 ∧ Feedable (feed_all p l1).1 l2 := by
  induction l1 with
  | nil => intro p l2; simp [Feedable, feed_all]
  | cons b l1 ih =>
    intro p l2
    show Feedable p (b :: (l1 ++ l2)) ↔ _
    simp only [Feedable, feed_all, ih, and_assoc]

theorem consumed_zero (f : FIFO_Buffer) (h : FifoInv f) : consumed f 0 = f := by
  obtain ⟨-, -, h0, h1, -⟩ := h
  apply FIFO_Buffer.ext_fields <;> simp only [consumed] <;> omega

theorem consumed_succ (f : FIFO_Buffer) (n : Nat) :
    consumed (consumed f 1) (n : Int) = consumed f ((n + 1 : Nat) : Int) := by
  apply FIFO_Buffer.ext_fields <;> simp only [consumed] <;> push_cast <;> omega

theorem contents_nonempty (f : FIFO_Buffer) (b : Nat) (rest : List Nat)
    (hc : contents f = b :: rest) : f.size ≠ 0 := by
  intro h0
  have := congrArg List.length hc
  simp [contents_length, h0] at this

theorem contents_consumed_one (f : FIFO_Buffer) (b : Nat) (rest : List Nat) (h : FifoInv f)
    (hc : contents f = b :: rest) : contents (consumed f 1) = rest := by
  have := read_fifo_contents f h (contents_nonempty f b rest hc)
  rw [hc] at this
  exact (List.tail_eq_of_cons_eq this).symm

theorem drive_feed_all (l : List Nat) :
    ∀ (p : Parser) (byte : Nat) (c : List PacketEvent) (rest : List Nat),
      FifoInv p.fifo → contents p.fifo = l ++ rest → Feedable p l →
      ∃ byte1, drive p byte c =
        drive { (feed_all p l).1 with fifo := consumed p.fifo (l.length : Int) } byte1
          (c ++ (feed_all p l).2) := by
  induction l with
  | nil =>
    intro p byte c rest hinv _ _
    refine ⟨byte, ?_⟩
    simp only [feed_all, List.length_nil, Nat.cast_zero, consumed_zero p.fifo hinv,
      List.append_nil]
  | cons b l ih =>
    intro p byte c rest hinv hc hf
    obtain ⟨hf1, hf2⟩ := hf
    have hne := contents_nonempty p.fifo b (l ++ rest) hc
    have hpos : p.fifo.size > 0 := by have := hinv.1; omega
    obtain ⟨hp, hcalls, hret⟩ := step_feed p byte b (l ++ rest) hinv hc hf1
    have hd := drive_continue p byte c hpos hret
    rw [hp, hcalls] at hd
    obtain ⟨byte1, ih1⟩ := ih { (feed p b).1 with fifo := consumed p.fifo 1 }
      (parse_step p byte).byte (c ++ (feed p b).2) rest
      (fifoInv_consumed_one p.fifo hinv hne)
      (contents_consumed_one p.fifo b (l ++ rest) hinv hc)
      ((Feedable_fifo l (feed p b).1 _).mpr hf2)
    refine ⟨byte1, ?_⟩
    rw [hd, ih1, feed_all_fifo l (feed p b).1 (consumed p.fifo 1)]
    simp only [feed_all, List.length_cons, consumed_succ, List.append_assoc]

theorem contents_empty (f : FIFO_Buffer) (h : f.size = 0) : contents f = [] := by
  simp [contents, h]

theorem deliver_feed (p : Parser) (chunk : List Nat) (hinv : FifoInv p.fifo)
    (hs : p.fifo.size = 0) (hlen : chunk.length ≤ 2048) (hf : Feedable p chunk) :
    ∃ g, deliver p chunk = some ({ (feed_all p chunk).1 with fifo := g }, (feed_all p chunk).2) ∧
      FifoInv g ∧ g.size = 0 := by
  obtain ⟨-, hwi, -, hws, -, hwc⟩ := write_fifo_ok p.fifo chunk chunk.length hinv (by omega)
    (by rw [hs]; omega)
  rw [contents_empty p.fifo hs, List.nil_append, Int.toNat_ofNat, memcpy_bytes_self] at hwc
  obtain ⟨byte1, hd⟩ := drive_feed_all chunk
    { p with fifo := (write_fifo p.fifo chunk chunk.length).2 } 0 [] [] hwi
    (by simp only [List.append_nil]; exact hwc) ((Feedable_fifo chunk p _).mpr hf)
  have hsz : (consumed (write_fifo p.fifo chunk chunk.length).2 (chunk.length : Int)).size = 0 := by
    simp only [consumed, hws, hs]; omega
  have hcinv : FifoInv (consumed (write_fifo p.fifo chunk chunk.length).2 (chunk.length : Int)) := by
    obtain ⟨a1, a2, a3, a4, a5, a6, a7⟩ := hwi
    simp only [FifoInv, consumed]
    rw [hws, hs] at a1 a2 a7 ⊢
    omega
  refine ⟨consumed (write_fifo p.fifo chunk chunk.length).2 (chunk.length : Int), ?_, hcinv, hsz⟩
  simp only [deliver, parse_uart_eq_drive]
  rw [hd, feed_all_fifo chunk p _]
  rw [drive_done _ _ _ (by simp only; omega)]
  simp

theorem deliver_all_feed (chunks : List (List Nat)) :
    ∀ (p : Parser), FifoInv p.fifo → p.fifo.size = 0 → chunks.flatten.length ≤ 2048 →
      Feedable p chunks.flatten →
      ∃ g, deliver_all p chunks =
          some ({ (feed_all p chunks.flatten).1 with fifo := g }, (feed_all p chunks.flatten).2) ∧
        FifoInv g ∧ g.size = 0 := by
  induction chunks with
  | nil =>
    intro p hinv hs _ _
    exact ⟨p.fifo, by simp [deliver_all, feed_all], hinv, hs⟩
  | cons chunk chunks ih =>
    intro p hinv hs hlen hf
    simp only [List.flatten_cons, List.length_append] at hlen
    rw [List.flatten_cons, Feedable_append] at hf
    obtain ⟨g1, hd1, hg1, hs1⟩ := deliver_feed p chunk hinv hs (by omega) hf.1
    obtain ⟨g2, hd2, hg2, hs2⟩ := ih { (feed_all p chunk).1 with fifo := g1 } hg1 hs1
      (by omega) ((Feedable_fifo _ _ _).mpr hf.2)
    refine ⟨g2, ?_, hg2, hs2⟩
    simp only [deliver_all, hd1, hd2, List.flatten_cons, feed_all_append, feed_all_fifo]


theorem feed_sync (p : Parser) (b : Nat) (hst : p.state = STATE_SYNC) :
    feed p b =
      (if b = SYNC_SEQUENCE.getD p.sync_pos.toNat 0 then
        (if p.sync_pos + 1 = 3 then
          { p with
            state := STATE_HEADER_SIZE, sync_pos := 0, data_size := 0, type := 0,
            header_checksum := 0, calculated_header_checksum := 0, size_bytes_read := 0,
            type_bytes_read := 0 }
        else { p with sync_pos := p.sync_pos + 1 })
      else { p with sync_pos := 0 }, []) := by
  obtain ⟨hs1, hh1, hb1⟩ := fifo_of_single b
  have hb1' : (fifo_of [b]).buffer (fifo_of [b]).head = b := by rw [hh1, hb1]
  have hpk1 := fun x => peek_fifo_ok (fifo_of [b]) 0 x (by omega) (le_refl 0) (by omega)
  have e1 : ((fifo_of [b]).head + 0) % 2048 = (fifo_of [b]).head := by omega
  simp only [feed, parse_step, hst, hpk1, e1, hb1', SYNC_SEQUENCE_LENGTH]
  split_ifs <;> rfl

theorem and_ff_small (b : Nat) (hb : b < 128) : b &&& 0xFF = b := by
  have h : b &&& 0xFF = b % 2 ^ 8 := Nat.and_pow_two_sub_one_eq_mod b 8
  rw [h]; omega

theorem feed_header_size (p : Parser) (b : Nat) (hst : p.state = STATE_HEADER_SIZE)
    (hb : b < 128) :
    feed p b =
      ({ p with
          data_size := b
          calculated_header_checksum := (p.calculated_header_checksum + b) % 256
          state := STATE_HEADER_TYPE }, []) := by
  obtain ⟨hs1, hh1, hb1⟩ := fifo_of_single b
  have hb1' : (fifo_of [b]).buffer (fifo_of [b]).head = b := by rw [hh1, hb1]
  have hd1 := decode_one_byte (fifo_of [b]) 0 (by omega) (by omega) (by omega)
  simp only [feed, parse_step, hst, hd1, hb1', and_ff_small b hb]
  rfl

theorem feed_header_type (p : Parser) (b : Nat) (hst : p.state = STATE_HEADER_TYPE)
    (hb : b < 128) :
    feed p b =
      ({ p with
          type := b
          calculated_header_checksum := (p.calculated_header_checksum + b) % 256
          state := STATE_HEADER_CHECKSUM }, []) := by
  obtain ⟨hs1, hh1, hb1⟩ := fifo_of_single b
  have hb1' : (fifo_of [b]).buffer (fifo_of [b]).head = b := by rw [hh1, hb1]
  have hd1 := decode_one_byte (fifo_of [b]) 0 (by omega) (by omega) (by omega)
  simp only [feed, parse_step, hst, hd1, hb1', and_ff_small b hb]
  rfl

theorem feed_header_checksum (p : Parser) (b : Nat) (hst : p.state = STATE_HEADER_CHECKSUM) :
    feed p b =
      if p.calculated_header_checksum = b then
        if p.data_size > 1000 then
          ({ p with header_checksum := b, state := STATE_SYNC }, [])
        else if p.data_size = 0 then
          ({ p with header_checksum := b, body_bytes_read := 0, state := STATE_SYNC },
            [{ type := p.type, data := [], size := 0 }])
        else
          ({ p with header_checksum := b, body_bytes_read := 0, state := STATE_BODY }, [])
      else
        ({ p with header_checksum := b, state := STATE_SYNC }, []) := by
  obtain ⟨hs1, hh1, hb1⟩ := fifo_of_single b
  have hb1' : (fifo_of [b]).buffer (fifo_of [b]).head = b := by rw [hh1, hb1]
  have hrd1 := fun x => read_fifo_nonempty (fifo_of [b]) x (by omega) (by omega)
  simp only [feed, parse_step, hst, hrd1, hb1', MAX_PACKET_SIZE]
  split_ifs <;> simp [callback_event]

theorem encode_small (v : Nat) (hv : v < 128) : encode_variable_length v = [v] := by
  have h7 : v &&& 0x7F = v % 2 ^ 7 := Nat.and_pow_two_sub_one_eq_mod v 7
  simp only [encode_variable_length, hv, if_true, h7]
  have : v % 2 ^ 7 % 256 = v := by omega
  rw [this]

theorem empty_frame_bytes (t : Nat) (ht : t < 128) :
    (build_packet 0 t none).2.1 = [0xAA, 0xBB, 0xCC, 0, t, t] := by
  have hc : t < 256 := by omega
  simp [build_packet, encode_small 0 (by decide), encode_small t ht, SYNC_SEQUENCE,
    header_checksum_loop, hc]

theorem empty_frame_feed (t : Nat) (ht : t < 128) (k : Nat) (hk : k ≤ 6) :
    Feedable (initParser init_fifo) ([0xAA, 0xBB, 0xCC, 0, t, t].take k) ∧
      (feed_all (initParser init_fifo) ([0xAA, 0xBB, 0xCC, 0, t, t].take k)).2
        = (if k = 6 then [{ type := t, data := [], size := 0 }] else []) ∧
      (feed_all (initParser init_fifo) ([0xAA, 0xBB, 0xCC, 0, t, t].take k)).1.state
        = (if k = 3 then STATE_HEADER_SIZE else if k = 4 then STATE_HEADER_TYPE
            else if k = 5 then STATE_HEADER_CHECKSUM else STATE_SYNC) := by
  have hc : t < 256 := by omega
  interval_cases k <;>
    simp [Feedable, feedable, feed_all, feed_sync, feed_header_size, feed_header_type,
      feed_header_checksum, initParser, SYNC_SEQUENCE, ht, hc]


/-- C13: for every `type < 128`, let the frame be the output of
`build_packet(0, type, NULL)` (six bytes). For every `k ≤ 6` and every list of
chunks whose concatenation is the first `k` bytes of the frame, delivering the
chunks to a fresh buffer and parser terminates with an empty buffer; the
callback has been invoked exactly once, with that type and length 0, when
`k = 6` and not at all when `k < 6` (so it is emitted by consuming the sixth
byte, the checksum); the parser is in `STATE_HEADER_SIZE`,
`STATE_HEADER_TYPE`, `STATE_HEADER_CHECKSUM` after 3, 4, 5 bytes and in
`STATE_SYNC` otherwise, never in `STATE_BODY`. In particular any split of
the whole frame gives one callback and ends in `STATE_SYNC` with an empty
buffer. -/
theorem C13_empty_body_frame (t : Nat) (ht : t < 128) (chunks : List (List Nat)) (k : Nat)
    (hk : k ≤ 6) (hsplit : chunks.flatten = ((build_packet 0 t none).2.1).take k) :
    ∃ q, deliver_all (initParser init_fifo) chunks
          = some (q, if k = 6 then [{ type := t, data := [], size := 0 }] else []) ∧
      q.fifo.size = 0 ∧
      q.state = (if k = 3 then STATE_HEADER_SIZE else if k = 4 then STATE_HEADER_TYPE
                  else if k = 5 then STATE_HEADER_CHECKSUM else STATE_SYNC) := by
  rw [empty_frame_bytes t ht] at hsplit
  obtain ⟨hf, hcalls, hstate⟩ := empty_frame_feed t ht k hk
  rw [← hsplit] at hf hcalls hstate
  have hlen : chunks.flatten.length ≤ 2048 := by
    rw [hsplit, List.length_take]
    simp
  obtain ⟨g, hd, -, hg⟩ := deliver_all_feed chunks (initParser init_fifo) fifoInv_init rfl hlen hf
  exact ⟨{ (feed_all (initParser init_fifo) chunks.flatten).1 with fifo := g },
    by rw [hd, hcalls], hg, hstate⟩


theorem scan_feed (g : List Nat) :
    ∀ (p : Parser) (c c1 : Nat), p.state = STATE_SYNC → p.sync_pos = (c : Int) →
      restart_scan c g = some c1 →
      Feedable p g ∧ feed_all p g = ({ p with sync_pos := (c1 : Int) }, []) := by
  induction g with
  | nil =>
    intro p c c1 _ hpos hscan
    simp only [restart_scan, Option.some.injEq] at hscan
    subst hscan
    exact ⟨trivial, by simp only [feed_all, ← hpos]⟩
  | cons b g ih =>
    intro p c c1 hst hpos hscan
    have hto : p.sync_pos.toNat = c := by omega
    have hfb : feedable p b := ⟨by simp [hst], fun h => by simp [hst] at h⟩
    simp only [restart_scan] at hscan
    by_cases hm : b = SYNC_SEQUENCE.getD c 0
    · by_cases h3 : c + 1 = 3
      · simp [hm, h3] at hscan
      · simp only [hm, h3, if_true, if_false] at hscan
        have h3i : ¬ p.sync_pos + 1 = 3 := by omega
        have hfeed : feed p b = ({ p with sync_pos := p.sync_pos + 1 }, []) := by
          rw [feed_sync p b hst, hto, if_pos hm, if_neg h3i]
        obtain ⟨ihf, iha⟩ := ih { p with sync_pos := p.sync_pos + 1 } (c + 1) c1 hst
          (by simp only; push_cast; omega) hscan
        refine ⟨⟨hfb, by rw [hfeed]; exact ihf⟩, ?_⟩
        simp only [feed_all, hfeed, iha, List.nil_append]
    · simp only [hm, if_false] at hscan
      have hfeed : feed p b = ({ p with sync_pos := 0 }, []) := by
        rw [feed_sync p b hst, hto, if_neg hm]
      obtain ⟨ihf, iha⟩ := ih { p with sync_pos := 0 } 0 c1 hst (by simp) hscan
      refine ⟨⟨hfb, by rw [hfeed]; exact ihf⟩, ?_⟩
      simp only [feed_all, hfeed, iha, List.nil_append]

theorem marker_feed (p : Parser) (hst : p.state = STATE_SYNC) (hpos : p.sync_pos = 0) :
    Feedable p [0xAA, 0xBB, 0xCC] ∧
      feed_all p [0xAA, 0xBB, 0xCC] =
        ({ p with
            state := STATE_HEADER_SIZE, sync_pos := 0, data_size := 0, type := 0,
            header_checksum := 0, calculated_header_checksum := 0, size_bytes_read := 0,
            type_bytes_read := 0 }, []) := by
  simp [Feedable, feedable, feed_all, feed_sync, hst, hpos, SYNC_SEQUENCE]

/-- C15, amended: for every parser in `STATE_SYNC` with match cursor 0 whose
buffer (satisfying the invariant) holds `g ++ [0xAA, 0xBB, 0xCC]`, where the
marker search on `g` started at cursor 0 ends with cursor 0 without
completing the marker, `parse_uart` returns with no callback invocation, in
`STATE_HEADER_SIZE`, with cursor 0, cleared header accumulators and an empty
buffer. -/
theorem C15_sync_after_garbage (p : Parser) (g : List Nat) (hst : p.state = STATE_SYNC)
    (hpos : p.sync_pos = 0) (hinv : FifoInv p.fifo)
    (hc : contents p.fifo = g ++ [0xAA, 0xBB, 0xCC]) (hscan : restart_scan 0 g = some 0) :
    ∃ q, parse_uart p = some (q, []) ∧
      q.state = STATE_HEADER_SIZE ∧ q.sync_pos = 0 ∧ q.data_size = 0 ∧ q.type = 0 ∧
      q.header_checksum = 0 ∧ q.calculated_header_checksum = 0 ∧
      q.size_bytes_read = 0 ∧ q.type_bytes_read = 0 ∧ q.fifo.size = 0 := by
  obtain ⟨hf1, ha1⟩ := scan_feed g p 0 0 hst (by simpa using hpos) hscan
  have hp1 : ({ p with sync_pos := ((0 : Nat) : Int) } : Parser) = p := by
    cases p; simp_all
  rw [hp1] at ha1
  obtain ⟨hf2, ha2⟩ := marker_feed p hst hpos
  have hf : Feedable p (g ++ [0xAA, 0xBB, 0xCC]) := by
    rw [Feedable_append, ha1]; exact ⟨hf1, hf2⟩
  have ha : feed_all p (g ++ [0xAA, 0xBB, 0xCC]) = _ := feed_all_append g p [0xAA, 0xBB, 0xCC]
  rw [ha1, ha2] at ha
  obtain ⟨byte1, hd⟩ := drive_feed_all (g ++ [0xAA, 0xBB, 0xCC]) p 0 [] [] hinv
    (by simpa using hc) hf
  have hsize : p.fifo.size = ((g ++ [0xAA, 0xBB, 0xCC]).length : Int) := by
    have := congrArg List.length hc
    rw [contents_length] at this
    have h0 := hinv.1
    omega
  rw [parse_uart_eq_drive, hd, ha]
  rw [drive_done _ _ _ (by simp only [consumed]; omega)]
  refine ⟨_, rfl, rfl, rfl, rfl, rfl, rfl, rfl, rfl, rfl, ?_⟩
  simp only [consumed]; omega

/-- C15 as stated fails for the garbage `g = [0xAA]`: in `AA AA BB CC` the
marker first occurs at the final three bytes, yet the parser, having matched
the first `AA`, resets on the second `AA` and drops it, so it drains the
buffer and is still in `STATE_SYNC`. -/
theorem C15_partial_match_hides_marker :
    (∀ i, i < 1 → (([0xAA] ++ [0xAA, 0xBB, 0xCC]).drop i).take 3 ≠ SYNC_SEQUENCE) ∧
    (([0xAA] ++ [0xAA, 0xBB, 0xCC]).drop 1).take 3 = SYNC_SEQUENCE ∧
    contents (fifo_of ([0xAA] ++ [0xAA, 0xBB, 0xCC])) = [0xAA] ++ [0xAA, 0xBB, 0xCC] ∧
    (parse_uart (initParser (fifo_of ([0xAA] ++ [0xAA, 0xBB, 0xCC])))).map
        (fun r => r.1.state) = some STATE_SYNC ∧
    (parse_uart (initParser (fifo_of ([0xAA] ++ [0xAA, 0xBB, 0xCC])))).map
        (fun r => r.1.fifo.size) = some 0 := by
  decide


theorem header_feed (p : Parser) (hst : p.state = STATE_SYNC) (hpos : p.sync_pos = 0)
    (n t c : Nat) (hn : n < 128) (ht : t < 128) :
    Feedable p [0xAA, 0xBB, 0xCC, n, t, c] ∧
      feed_all p [0xAA, 0xBB, 0xCC, n, t, c] =
        (if (n + t) % 256 = c then
          (if n = 0 then
            ({ p with
                state := STATE_SYNC, sync_pos := 0, data_size := n, type := t,
                header_checksum := c, calculated_header_checksum := (n + t) % 256,
                size_bytes_read := 0, type_bytes_read := 0, body_bytes_read := 0 },
              [{ type := t, data := [], size := 0 }])
          else
            ({ p with
                state := STATE_BODY, sync_pos := 0, data_size := n, type := t,
                header_checksum := c, calculated_header_checksum := (n + t) % 256,
                size_bytes_read := 0, type_bytes_read := 0, body_bytes_read := 0 }, []))
        else
          ({ p with
              state := STATE_SYNC, sync_pos := 0, data_size := n, type := t,
              header_checksum := c, calculated_header_checksum := (n + t) % 256,
              size_bytes_read := 0, type_bytes_read := 0 }, [])) := by
  have hn1 : ¬ n > 1000 := by omega
  have hn2 : n % 256 = n := by omega
  have hn3 : n < 256 := by omega
  constructor
  · simp [Feedable, feedable, feed_all, feed_sync, feed_header_size, feed_header_type,
      feed_header_checksum, hst, hpos, SYNC_SEQUENCE, hn, ht]
  · by_cases hc : (n + t) % 256 = c
    · by_cases h0 : n = 0
      · subst h0
        simp [feed_all, feed_sync, feed_header_size, feed_header_type,
          feed_header_checksum, hst, hpos, SYNC_SEQUENCE, hn, ht, hc]
      · simp [feed_all, feed_sync, feed_header_size, feed_header_type,
          feed_header_checksum, hst, hpos, SYNC_SEQUENCE, hn, ht, hc, h0, hn1, hn2, hn3]
    · simp [feed_all, feed_sync, feed_header_size, feed_header_type,
        feed_header_checksum, hst, hpos, SYNC_SEQUENCE, hn, ht, hc, hn1, hn2, hn3]


theorem small_frame_bytes (n t : Nat) (body : List Nat) (hlen : body.length = n)
    (hn : n < 128) (ht : t < 128) :
    (build_packet n t (some body)).2.1 = [0xAA, 0xBB, 0xCC, n, t, (n + t) % 256] ++ body := by
  subst hlen
  by_cases h0 : body.length > 0
  · simp [build_packet, encode_small _ hn, encode_small t ht, SYNC_SEQUENCE,
      header_checksum_loop, h0, memcpy_bytes_self]
  · have hnil : body = [] := List.length_eq_zero.mp (by omega)
    subst hnil
    simp [build_packet, encode_small 0 (by decide), encode_small t ht, SYNC_SEQUENCE,
      header_checksum_loop]

theorem body_read_all_drains (k : Nat) :
    ∀ (i : Nat) (p : Parser) (b : Nat), 0 ≤ p.fifo.size → p.fifo.size ≤ (k : Int) →
      (body_read_all i k p b).1.fifo.size = 0 := by
  induction k with
  | zero =>
    intro i p b h0 h1
    simp only [body_read_all]
    omega
  | succ k ih =>
    intro i p b h0 h1
    simp only [body_read_all]
    apply ih
    · simp only [read_fifo]; split_ifs <;> simp only <;> omega
    · simp only [read_fifo]; split_ifs <;> simp only <;> omega

theorem body_complete_step (p : Parser) (byte : Nat) (hst : p.state = STATE_BODY)
    (h0 : 0 < p.fifo.size) (hfit : p.fifo.size = (p.data_size : Int) - (p.body_bytes_read : Int))
    (hbig : p.data_size < 2147483648) :
    (parse_step p byte).returned = false ∧
      (parse_step p byte).parser.state = STATE_SYNC ∧
      (parse_step p byte).parser.fifo.size = 0 ∧
      ∃ data, (parse_step p byte).calls = [{ type := p.type, data := data, size := p.data_size }] := by
  have hto : to_int (to_unsigned ((p.data_size : Int) - (p.body_bytes_read : Int)))
      = (p.data_size : Int) - (p.body_bytes_read : Int) :=
    to_int_to_unsigned _ (by omega) (by omega)
  have hav : p.fifo.size ≥ (p.data_size : Int) - (p.body_bytes_read : Int) := by omega
  have hne : p.fifo.size ≠ 0 := by omega
  have hdr := body_read_all_drains ((p.data_size : Int) - (p.body_bytes_read : Int)).toNat 0
    { p with fifo := (read_fifo p.fifo byte).2.2 } (read_fifo p.fifo byte).2.1
    (by simp only [read_fifo, hne, if_false]; omega)
    (by simp only [read_fifo, hne, if_false]; omega)
  obtain ⟨-, -, f3, f4, -⟩ := body_read_all_fields
    ((p.data_size : Int) - (p.body_bytes_read : Int)).toNat 0
    { p with fifo := (read_fifo p.fifo byte).2.2 } (read_fifo p.fifo byte).2.1
  have hsum : to_unsigned ((p.body_bytes_read : Int)
      + ((p.data_size : Int) - (p.body_bytes_read : Int))) = p.data_size := by
    simp only [to_unsigned]; omega
  simp only [hst] at hdr f3 f4
  simp only [parse_step, hst, hto, hav, if_true, callback_event, f3, f4, hsum]
  exact ⟨trivial, trivial, hdr, _, rfl⟩


theorem corrupt_prefix_feed (p : Parser) (hst : p.state = STATE_SYNC) (hpos : p.sync_pos = 0)
    (s1 t1 c n gt : Nat) (fb : List Nat) (hs1 : s1 < 128) (ht1 : t1 < 128)
    (hmis : (s1 + t1) % 256 ≠ c) (hscan : restart_scan 0 fb = some 0)
    (hn : n < 128) (hgt : gt < 128) :
    Feedable p ([0xAA, 0xBB, 0xCC, s1, t1, c] ++ (fb ++ [0xAA, 0xBB, 0xCC, n, gt, (n + gt) % 256])) ∧
      (feed_all p ([0xAA, 0xBB, 0xCC, s1, t1, c]
          ++ (fb ++ [0xAA, 0xBB, 0xCC, n, gt, (n + gt) % 256]))).2
        = (if n = 0 then [{ type := gt, data := [], size := 0 }] else []) ∧
      (feed_all p ([0xAA, 0xBB, 0xCC, s1, t1, c]
          ++ (fb ++ [0xAA, 0xBB, 0xCC, n, gt, (n + gt) % 256]))).1.state
        = (if n = 0 then STATE_SYNC else STATE_BODY) ∧
      (feed_all p ([0xAA, 0xBB, 0xCC, s1, t1, c]
          ++ (fb ++ [0xAA, 0xBB, 0xCC, n, gt, (n + gt) % 256]))).1.data_size = n ∧
      (feed_all p ([0xAA, 0xBB, 0xCC, s1, t1, c]
          ++ (fb ++ [0xAA, 0xBB, 0xCC, n, gt, (n + gt) % 256]))).1.type = gt ∧
      (feed_all p ([0xAA, 0xBB, 0xCC, s1, t1, c]
          ++ (fb ++ [0xAA, 0xBB, 0xCC, n, gt, (n + gt) % 256]))).1.body_bytes_read = 0 := by
  obtain ⟨hf1, ha1⟩ := header_feed p hst hpos s1 t1 c hs1 ht1
  rw [if_neg hmis] at ha1
  obtain ⟨hf2, ha2⟩ := scan_feed fb (feed_all p [0xAA, 0xBB, 0xCC, s1, t1, c]).1 0 0
    (by rw [ha1]) (by rw [ha1]; rfl) hscan
  have hsame : ({ (feed_all p [0xAA, 0xBB, 0xCC, s1, t1, c]).1 with
      sync_pos := ((0 : Nat) : Int) } : Parser) = (feed_all p [0xAA, 0xBB, 0xCC, s1, t1, c]).1 := by
    rw [ha1]; rfl
  rw [hsame] at ha2
  obtain ⟨hf3, ha3⟩ := header_feed (feed_all p [0xAA, 0xBB, 0xCC, s1, t1, c]).1
    (by rw [ha1]) (by rw [ha1]) n gt ((n + gt) % 256) hn hgt
  rw [if_pos rfl] at ha3
  refine ⟨?_, ?_⟩
  · rw [Feedable_append, Feedable_append, ha2]
    exact ⟨hf1, hf2, hf3⟩
  · rw [feed_all_append, feed_all_append, ha2, ha3, ha1]
    by_cases h0 : n = 0 <;> simp [h0]


theorem corrupt_recovery_stream (s1 t1 c gt : Nat) (fb gb : List Nat)
    (hs1 : s1 < 128) (ht1 : t1 < 128) (hmis : (s1 + t1) % 256 ≠ c)
    (hscan : restart_scan 0 fb = some 0) (hfb : fb.length < 128)
    (hgb : gb.length < 128) (hgt : gt < 128) :
    ∃ q data,
      deliver (initParser init_fifo)
          (([0xAA, 0xBB, 0xCC, s1, t1, c] ++ fb)
            ++ ([0xAA, 0xBB, 0xCC, gb.length, gt, (gb.length + gt) % 256] ++ gb))
        = some (q, [{ type := gt, data := data, size := gb.length }]) ∧
      q.state = STATE_SYNC ∧ q.fifo.size = 0 := by
  have hchunk : ([0xAA, 0xBB, 0xCC, s1, t1, c] ++ fb)
        ++ ([0xAA, 0xBB, 0xCC, gb.length, gt, (gb.length + gt) % 256] ++ gb)
      = ([0xAA, 0xBB, 0xCC, s1, t1, c]
          ++ (fb ++ [0xAA, 0xBB, 0xCC, gb.length, gt, (gb.length + gt) % 256])) ++ gb := by
    simp
  rw [hchunk]
  generalize hl : [0xAA, 0xBB, 0xCC, s1, t1, c]
      ++ (fb ++ [0xAA, 0xBB, 0xCC, gb.length, gt, (gb.length + gt) % 256]) = l
  have hllen : l.length = 12 + fb.length := by
    rw [← hl]; simp; omega
  obtain ⟨-, hwi, -, hws, -, hwc⟩ := write_fifo_ok init_fifo (l ++ gb) (l ++ gb).length
    fifoInv_init (by omega) (by simp only [init_fifo, List.length_append]; omega)
  rw [Int.toNat_ofNat, memcpy_bytes_self, contents_empty init_fifo rfl, List.nil_append] at hwc
  have hws0 : (write_fifo init_fifo (l ++ gb) (l ++ gb).length).2.size
      = (l.length : Int) + (gb.length : Int) := by
    rw [hws, List.length_append]; simp [init_fifo]
  have hdel : deliver (initParser init_fifo) (l ++ gb) =
      drive { initParser init_fifo with
        fifo := (write_fifo init_fifo (l ++ gb) (l ++ gb).length).2 } 0 [] := rfl
  rw [hdel]
  generalize (write_fifo init_fifo (l ++ gb) (l ++ gb).length).2 = w at hwi hwc hws0 ⊢
  obtain ⟨hf, hcalls, hstate, hds, hty, hbbr⟩ := corrupt_prefix_feed
    { initParser init_fifo with fifo := w }
    rfl rfl s1 t1 c gb.length gt fb hs1 ht1 hmis hscan hgb hgt
  rw [hl] at hf hcalls hstate hds hty hbbr
  obtain ⟨byte1, hd⟩ := drive_feed_all l { initParser init_fifo with fifo := w }
    0 [] gb hwi hwc hf
  rw [hd]
  have hsz : ({ (feed_all { initParser init_fifo with fifo := w } l).1 with
      fifo := consumed w (l.length : Int) } : Parser).fifo.size = (gb.length : Int) := by
    show w.size - (l.length : Int) = _
    rw [hws0]; omega
  have hstate1 : ({ (feed_all { initParser init_fifo with fifo := w } l).1 with
      fifo := consumed w (l.length : Int) } : Parser).state
      = (if gb.length = 0 then STATE_SYNC else STATE_BODY) := hstate
  have hds1 : ({ (feed_all { initParser init_fifo with fifo := w } l).1 with
      fifo := consumed w (l.length : Int) } : Parser).data_size = gb.length := hds
  have hty1 : ({ (feed_all { initParser init_fifo with fifo := w } l).1 with
      fifo := consumed w (l.length : Int) } : Parser).type = gt := hty
  have hbbr1 : ({ (feed_all { initParser init_fifo with fifo := w } l).1 with
      fifo := consumed w (l.length : Int) } : Parser).body_bytes_read = 0 := hbbr
  generalize ({ (feed_all { initParser init_fifo with fifo := w } l).1 with
      fifo := consumed w (l.length : Int) } : Parser) = P at hsz hstate1 hds1 hty1 hbbr1 ⊢
  rw [hcalls, List.nil_append]
  by_cases h0 : gb.length = 0
  · rw [drive_done _ _ _ (by rw [hsz]; omega)]
    rw [if_pos h0] at hstate1 ⊢
    exact ⟨P, [], by rw [h0], hstate1, by rw [hsz]; omega⟩
  · rw [if_neg h0] at hstate1 ⊢
    obtain ⟨hret, hst2, hsz2, data, hcalls2⟩ := body_complete_step P byte1 hstate1
      (by rw [hsz]; omega) (by rw [hsz, hds1, hbbr1]; push_cast; omega) (by rw [hds1]; omega)
    rw [drive_continue _ _ _ (by rw [hsz]; omega) hret]
    rw [drive_done _ _ _ (by rw [hsz2]; omega)]
    refine ⟨_, data, ?_, hst2, hsz2⟩
    rw [hcalls2, hty1, hds1, List.nil_append]


theorem corrupt_header_mismatch (s1 t1 c : Nat) (hs1 : s1 < 128) (ht1 : t1 < 128)
    (hmis : (s1 + t1) % 256 ≠ c) :
    ∃ q, deliver (initParser init_fifo) [0xAA, 0xBB, 0xCC, s1, t1, c] = some (q, []) ∧
      q.state = STATE_SYNC ∧ q.header_checksum ≠ q.calculated_header_checksum := by
  obtain ⟨hf, ha⟩ := header_feed (initParser init_fifo) rfl rfl s1 t1 c hs1 ht1
  rw [if_neg hmis] at ha
  obtain ⟨g, hd, -, -⟩ := deliver_feed (initParser init_fifo) [0xAA, 0xBB, 0xCC, s1, t1, c]
    fifoInv_init rfl (by simp) hf
  rw [ha] at hd
  exact ⟨_, hd, rfl, fun h => hmis h.symm⟩

/-- C14, amended: let `f = build_packet(|fb|, ft, fb)` with `|fb| < 128`,
`ft < 128` and a body `fb` on which the marker search ends with cursor 0
without completing the marker, and `g = build_packet(|gb|, gt, gb)` with
`|gb| < 128`, `gt < 128`. Replace the size byte (position 3) or the type byte
(position 4) of `f` by any value `v < 128` different from the original. Then
the corrupted header alone takes the checksum-mismatch branch (no callback,
state `STATE_SYNC`, received checksum different from the accumulated one),
and the corrupted `f` followed by `g`, delivered in one chunk to a fresh
buffer and parser, invokes the callback exactly once, with `g`'s type and
`g`'s length, and ends in `STATE_SYNC` with an empty buffer. -/
theorem C14_header_corruption_recovery (fb gb : List Nat) (ft gt pos v : Nat)
    (hfb : fb.length < 128) (hft : ft < 128) (hgb : gb.length < 128) (hgt : gt < 128)
    (hscan : restart_scan 0 fb = some 0) (hpos : pos = 3 ∨ pos = 4) (hv : v < 128)
    (hne : ((build_packet fb.length ft (some fb)).2.1).getD pos 0 ≠ v) :
    (∃ q, deliver (initParser init_fifo)
          ((((build_packet fb.length ft (some fb)).2.1).set pos v).take 6) = some (q, []) ∧
        q.state = STATE_SYNC ∧ q.header_checksum ≠ q.calculated_header_checksum) ∧
      (∃ q data, deliver (initParser init_fifo)
          (((build_packet fb.length ft (some fb)).2.1).set pos v
            ++ (build_packet gb.length gt (some gb)).2.1)
          = some (q, [{ type := gt, data := data, size := gb.length }]) ∧
        q.state = STATE_SYNC ∧ q.fifo.size = 0) := by
  rw [small_frame_bytes fb.length ft fb rfl hfb hft] at hne ⊢
  rw [small_frame_bytes gb.length gt gb rfl hgb hgt]
  rcases hpos with hp | hp
  · subst hp
    have hne1 : fb.length ≠ v := by simpa using hne
    have hmis : (v + ft) % 256 ≠ (fb.length + ft) % 256 := by omega
    have hset : ([0xAA, 0xBB, 0xCC, fb.length, ft, (fb.length + ft) % 256] ++ fb).set 3 v
        = [0xAA, 0xBB, 0xCC, v, ft, (fb.length + ft) % 256] ++ fb := by simp
    rw [hset]
    have htake : ([0xAA, 0xBB, 0xCC, v, ft, (fb.length + ft) % 256] ++ fb).take 6
        = [0xAA, 0xBB, 0xCC, v, ft, (fb.length + ft) % 256] := by simp
    rw [htake]
    exact ⟨corrupt_header_mismatch v ft _ hv hft hmis,
      corrupt_recovery_stream v ft _ gt fb gb hv hft hmis hscan hfb hgb hgt⟩
  · subst hp
    have hne1 : ft ≠ v := by simpa using hne
    have hmis : (fb.length + v) % 256 ≠ (fb.length + ft) % 256 := by omega
    have hset : ([0xAA, 0xBB, 0xCC, fb.length, ft, (fb.length + ft) % 256] ++ fb).set 4 v
        = [0xAA, 0xBB, 0xCC, fb.length, v, (fb.length + ft) % 256] ++ fb := by simp
    rw [hset]
    have htake : ([0xAA, 0xBB, 0xCC, fb.length, v, (fb.length + ft) % 256] ++ fb).take 6
        = [0xAA, 0xBB, 0xCC, fb.length, v, (fb.length + ft) % 256] := by simp
    rw [htake]
    exact ⟨corrupt_header_mismatch fb.length v _ hfb hv hmis,
      corrupt_recovery_stream fb.length v _ gt fb gb hfb hv hmis hscan hfb hgb hgt⟩

/-- Witness for C14 (amended): `f` with type 5 and body `[0x10, 0x20]`, size
byte replaced by 7; `g` with type 9 and body `[0x50]`. -/
theorem C14_header_corruption_recovery_witness :
    (∃ q, deliver (initParser init_fifo)
          ((((build_packet [0x10, 0x20].length 5 (some [0x10, 0x20])).2.1).set 3 7).take 6)
          = some (q, []) ∧
        q.state = STATE_SYNC ∧ q.header_checksum ≠ q.calculated_header_checksum) ∧
      (∃ q data, deliver (initParser init_fifo)
          (((build_packet [0x10, 0x20].length 5 (some [0x10, 0x20])).2.1).set 3 7
            ++ (build_packet [0x50].length 9 (some [0x50])).2.1)
          = some (q, [{ type := 9, data := data, size := [0x50].length }]) ∧
        q.state = STATE_SYNC ∧ q.fifo.size = 0) :=
  C14_header_corruption_recovery [0x10, 0x20] [0x50] 5 9 3 7 (by decide) (by decide)
    (by decide) (by decide) (by decide) (Or.inl rfl) (by decide) (by decide)

/-- C14 as stated fails for `f = build_packet(1, 5, [0x87])` with its size
byte `01` replaced by `0x81`, followed by `g = build_packet(0, 7, NULL)`: the
stream is `AA BB CC 81 05 06 87 AA BB CC 00 07 07`; the parser decodes the
two-byte size `81 05` as 641 and takes `06` as the type, the accumulated
checksum `0x87` equals the next byte `87`, so the header is accepted (no
mismatch), the parser enters `STATE_BODY` waiting for 641 bytes, swallows `g`
and invokes no callback. -/
theorem C14_corrupted_size_swallows_next_frame :
    ((build_packet 1 5 (some [0x87])).2.1).getD 3 0 = 1 ∧
    ((build_packet 1 5 (some [0x87])).2.1).set 3 0x81 ++ (build_packet 0 7 none).2.1
      = [0xAA, 0xBB, 0xCC, 0x81, 0x05, 0x06, 0x87, 0xAA, 0xBB, 0xCC, 0x00, 0x07, 0x07] ∧
    (deliver (initParser init_fifo)
        (((build_packet 1 5 (some [0x87])).2.1).set 3 0x81 ++ (build_packet 0 7 none).2.1)).map
      (fun r => r.2) = some [] ∧
    (deliver (initParser init_fifo)
        (((build_packet 1 5 (some [0x87])).2.1).set 3 0x81 ++ (build_packet 0 7 none).2.1)).map
      (fun r => r.1.state) = some STATE_BODY ∧
    (deliver (initParser init_fifo)
        (((build_packet 1 5 (some [0x87])).2.1).set 3 0x81 ++ (build_packet 0 7 none).2.1)).map
      (fun r => (r.1.header_checksum, r.1.calculated_header_checksum)) = some (0x87, 0x87) ∧
    (deliver (initParser init_fifo)
        (((build_packet 1 5 (some [0x87])).2.1).set 3 0x81 ++ (build_packet 0 7 none).2.1)).map
      (fun r => r.1.data_size) = some 641 := by
  decide

/-- Witness for C13: type 7, the frame split as `AA BB | CC 00 07 | 07`. -/
theorem C13_empty_body_frame_witness :
    ∃ q, deliver_all (initParser init_fifo) [[0xAA, 0xBB], [0xCC, 0, 7], [7]]
          = some (q, if 6 = 6 then [{ type := 7, data := [], size := 0 }] else []) ∧
      q.fifo.size = 0 ∧
      q.state = (if 6 = 3 then STATE_HEADER_SIZE else if 6 = 4 then STATE_HEADER_TYPE
                  else if 6 = 5 then STATE_HEADER_CHECKSUM else STATE_SYNC) :=
  C13_empty_body_frame 7 (by decide) [[0xAA, 0xBB], [0xCC, 0, 7], [7]] 6 (by decide)
    (by decide)

/-- Witness for C15 (amended): garbage `01 02 AA 03` before the marker. -/
theorem C15_sync_after_garbage_witness :
    ∃ q, parse_uart (initParser (fifo_of ([1, 2, 0xAA, 3] ++ [0xAA, 0xBB, 0xCC]))) = some (q, []) ∧
      q.state = STATE_HEADER_SIZE ∧ q.sync_pos = 0 ∧ q.data_size = 0 ∧ q.type = 0 ∧
      q.header_checksum = 0 ∧ q.calculated_header_checksum = 0 ∧
      q.size_bytes_read = 0 ∧ q.type_bytes_read = 0 ∧ q.fifo.size = 0 :=
  C15_sync_after_garbage (initParser (fifo_of ([1, 2, 0xAA, 3] ++ [0xAA, 0xBB, 0xCC])))
    [1, 2, 0xAA, 3] rfl rfl (by decide) (by decide) (by decide)


/-! ## What `parse_uart` leaves buffered -/

theorem body_read_all_fifoInv (k : Nat) :
    ∀ (i : Nat) (p : Parser) (b : Nat), FifoInv p.fifo →
      FifoInv (body_read_all i k p b).1.fifo := by
  induction k with
  | zero => intro i p b h; exact h
  | succ k ih =>
    intro i p b h
    simp only [body_read_all]
    exact ih _ _ _ (fifoInv_read p.fifo b h)

theorem body_read_available_fifoInv (k : Nat) :
    ∀ (p : Parser) (b : Nat), FifoInv p.fifo →
      FifoInv (body_read_available k p b).1.fifo := by
  induction k with
  | zero => intro p b h; exact h
  | succ k ih =>
    intro p b h
    simp only [body_read_available]
    split_ifs
    · exact ih _ _ (fifoInv_read p.fifo b h)
    · exact fifoInv_read p.fifo b h

theorem body_read_available_drains (k : Nat) :
    ∀ (p : Parser) (b : Nat), p.body_bytes_read + k ≤ 1000 → (k : Int) ≤ p.fifo.size →
      (body_read_available k p b).1.fifo.size = p.fifo.size - (k : Int) := by
  induction k with
  | zero => intro p b _ _; simp [body_read_available]
  | succ k ih =>
    intro p b hle hk
    have hlt : p.body_bytes_read < MAX_PACKET_SIZE := by simp only [MAX_PACKET_SIZE]; omega
    have hmod : (p.body_bytes_read + 1) % 4294967296 = p.body_bytes_read + 1 := by omega
    have hne : p.fifo.size ≠ 0 := by omega
    simp only [body_read_available, hlt, if_true, hmod]
    rw [ih _ _ (by simp only; omega) (by simp only [read_fifo, hne, if_false]; omega)]
    simp only [read_fifo, hne, if_false]
    push_cast
    omega

theorem fifoInv_step (p : Parser) (byte : Nat) (h : FifoInv p.fifo) :
    FifoInv (parse_step p byte).parser.fifo := by
  have hrd := fun b => fifoInv_read p.fifo b h
  have hdc := fun v => fifoInv_decode p.fifo v h
  cases hst : p.state
  · simp only [parse_step, hst]
    split_ifs <;> first | exact hrd _ | exact h
  · simp only [parse_step, hst]
    split_ifs <;> exact hdc _
  · simp only [parse_step, hst]
    split_ifs <;> exact hdc _
  · simp only [parse_step, hst]
    split_ifs <;> exact hrd _
  · simp only [parse_step, hst]
    split_ifs
    · exact body_read_all_fifoInv _ _ _ _ (hrd _)
    · exact body_read_available_fifoInv _ _ _ h

theorem step_return_drained (p : Parser) (byte : Nat) (hinv : FifoInv p.fifo)
    (hbody : BodyInv p) (hs : 0 < p.fifo.size) (hr : (parse_step p byte).returned = true) :
    Drained (parse_step p byte).parser := by
  have hne : p.fifo.size ≠ 0 := by omega
  have hh := hinv.2.2.1
  have hh1 := hinv.2.2.2.1
  cases hst : p.state
  · have := (parse_step_sync p byte hst hh hs).1
    rw [this] at hr; simp at hr
  · by_cases hb : p.fifo.buffer p.fifo.head < 128
    · simp [parse_step, hst, decode_one_byte p.fifo 0 hne hh hb] at hr
    · by_cases hone : p.fifo.size = 1
      · have hd := decode_push_back p.fifo 0 hone hh hh1 (by omega)
        have hm : ¬ ((-1 : Int) = 0) := by decide
        simp only [parse_step, hst, hd, hm, if_false]
        exact Or.inr ⟨hone, by show 128 ≤ p.fifo.buffer p.fifo.head; omega, Or.inl rfl⟩
      · simp [parse_step, hst, decode_two_bytes p.fifo 0 hne hone hh (by omega)] at hr
  · by_cases hb : p.fifo.buffer p.fifo.head < 128
    · simp [parse_step, hst, decode_one_byte p.fifo 0 hne hh hb] at hr
    · by_cases hone : p.fifo.size = 1
      · have hd := decode_push_back p.fifo 0 hone hh hh1 (by omega)
        have hm : ¬ ((-1 : Int) = 0) := by decide
        simp only [parse_step, hst, hd, hm, if_false]
        exact Or.inr ⟨hone, by show 128 ≤ p.fifo.buffer p.fifo.head; omega, Or.inr rfl⟩
      · simp [parse_step, hst, decode_two_bytes p.fifo 0 hne hone hh (by omega)] at hr
  · revert hr
    simp only [parse_step, hst, read_fifo_nonempty p.fifo byte hne hh]
    split_ifs <;> simp
  · obtain ⟨hlt, hle⟩ := hbody.1 hst
    have hto : to_int (to_unsigned ((p.data_size : Int) - (p.body_bytes_read : Int)))
        = (p.data_size : Int) - (p.body_bytes_read : Int) :=
      to_int_to_unsigned _ (by omega) (by omega)
    by_cases hav : p.fifo.size ≥ (p.data_size : Int) - (p.body_bytes_read : Int)
    · simp [parse_step, hst, hto, hav] at hr
    · have hk : p.body_bytes_read + p.fifo.size.toNat ≤ 1000 := by omega
      have hdr := body_read_available_drains p.fifo.size.toNat p byte hk (by omega)
      simp only [parse_step, hst, hto, hav, if_false]
      exact Or.inl (by rw [hdr]; omega)

theorem parse_loop_drained (fuel : Nat) :
    ∀ (p : Parser) (b : Nat) (calls : List PacketEvent) (q : Parser) (out : List PacketEvent),
      FifoInv p.fifo → BodyInv p → parse_loop fuel p b calls = some (q, out) → Drained q := by
  induction fuel with
  | zero => intro p b calls q out _ _ h; simp [parse_loop] at h
  | succ fuel ih =>
    intro p b calls q out hinv hbody h
    by_cases hs : p.fifo.size > 0
    · by_cases hr : (parse_step p b).returned = true
      · simp only [parse_loop, hs, hr, if_true, Option.some.injEq, Prod.mk.injEq] at h
        rw [← h.1]
        exact step_return_drained p b hinv hbody hs hr
      · have hr0 : (parse_step p b).returned = false := by simpa using hr
        simp only [parse_loop, hs, hr0, if_true] at h
        exact ih _ _ _ q out (fifoInv_step p b hinv) (bodyInv_step p b hbody) (by simpa using h)
    · simp only [parse_loop, hs, if_false, Option.some.injEq, Prod.mk.injEq] at h
      rw [← h.1]
      exact Or.inl (by have := hinv.1; omega)

theorem parse_loop_fifoInv (fuel : Nat) :
    ∀ (p : Parser) (b : Nat) (calls : List PacketEvent) (q : Parser) (out : List PacketEvent),
      FifoInv p.fifo → parse_loop fuel p b calls = some (q, out) → FifoInv q.fifo := by
  induction fuel with
  | zero => intro p b calls q out _ h; simp [parse_loop] at h
  | succ fuel ih =>
    intro p b calls q out hinv h
    by_cases hs : p.fifo.size > 0
    · by_cases hr : (parse_step p b).returned = true
      · simp only [parse_loop, hs, hr, if_true, Option.some.injEq, Prod.mk.injEq] at h
        rw [← h.1]
        exact fifoInv_step p b hinv
      · have hr0 : (parse_step p b).returned = false := by simpa using hr
        simp only [parse_loop, hs, hr0, if_true] at h
        exact ih _ _ _ q out (fifoInv_step p b hinv) (by simpa using h)
    · simp only [parse_loop, hs, if_false, Option.some.injEq, Prod.mk.injEq] at h
      rw [← h.1]
      exact hinv

theorem fifoInv_reachable (p : Parser) (h : Reachable p) : FifoInv p.fifo := by
  induction h with
  | init => exact fifoInv_init
  | write p data length _ hl ih => exact fifoInv_write p.fifo data length ih hl
  | iteration p byte _ _ ih => exact fifoInv_step p byte ih
  | parse p q calls _ hq ih => exact parse_loop_fifoInv _ p 0 [] q calls ih hq

/-- C21: every reachable parser has a buffer satisfying the invariant, and
for every reachable parser (its fields) and every buffer satisfying the
invariant, `parse_uart` returns, and when it returns either the buffer is
empty, or it holds exactly one byte, that byte is `≥ 128` and the parser is
in `STATE_HEADER_SIZE` or `STATE_HEADER_TYPE`. -/
theorem C21_drain_postcondition (q : Parser) (f : FIFO_Buffer) (hreach : Reachable q)
    (hinv : FifoInv f) :
    FifoInv q.fifo ∧
      ∃ p calls, parse_uart { q with fifo := f } = some (p, calls) ∧
        (p.fifo.size = 0 ∨
          (p.fifo.size = 1 ∧ 128 ≤ p.fifo.buffer p.fifo.head ∧
            (p.state = STATE_HEADER_SIZE ∨ p.state = STATE_HEADER_TYPE))) := by
  obtain ⟨r, hr⟩ := parse_uart_total { q with fifo := f }
  have hb : BodyInv { q with fifo := f } := bodyInv_reachable q hreach
  exact ⟨fifoInv_reachable q hreach,
    r.1, r.2, hr, parse_loop_drained _ _ 0 [] r.1 r.2 hinv hb hr⟩

/-- Witness for C21: a fresh parser with `AA BB CC 85` buffered, which stops
in `STATE_HEADER_SIZE` with the byte `85` left. -/
theorem C21_drain_postcondition_witness :
    FifoInv (initParser init_fifo).fifo ∧
      ∃ p calls, parse_uart { initParser init_fifo with
            fifo := fifo_of [0xAA, 0xBB, 0xCC, 0x85] } = some (p, calls) ∧
        (p.fifo.size = 0 ∨
          (p.fifo.size = 1 ∧ 128 ≤ p.fifo.buffer p.fifo.head ∧
            (p.state = STATE_HEADER_SIZE ∨ p.state = STATE_HEADER_TYPE))) :=
  C21_drain_postcondition (initParser init_fifo) (fifo_of [0xAA, 0xBB, 0xCC, 0x85])
    Reachable.init (by decide)

/-! ## Negative lengths -/

/-- C22, evaluated at `length = -5` on an empty buffer: `write_fifo` returns
0 and leaves `size = -5`, which breaks `0 ≤ size`. The demo harness makes
this call: its chunk sizes are `{5, 10, 15, -5}`; after the first three
rounds the buffer is empty and `current_pos` is 25, and after the fourth
round the buffer has `size = -5` and does not satisfy the invariant. -/
theorem C22_negative_length_breaks_invariant :
    FifoInv init_fifo ∧
    (write_fifo init_fifo [] (-5)).1 = 0 ∧
    (write_fifo init_fifo [] (-5)).2.size = -5 ∧
    ¬ FifoInv (write_fifo init_fifo [] (-5)).2 ∧
    demo_chunk_sizes = [5, 10, 15, -5] ∧
    (main_chunk_loop demo_stream demo_stream_pos (demo_chunk_sizes.take 3)
        (initParser init_fifo) 0 []).map (fun r => r.1.fifo.size) = some 0 ∧
    (main_chunk_loop demo_stream demo_stream_pos (demo_chunk_sizes.take 3)
        (initParser init_fifo) 0 []).map (fun r => r.2.1) = some 25 ∧
    (main_chunk_loop demo_stream demo_stream_pos demo_chunk_sizes
        (initParser init_fifo) 0 []).map (fun r => r.1.fifo.size) = some (-5) ∧
    (main_chunk_loop demo_stream demo_stream_pos demo_chunk_sizes
        (initParser init_fifo) 0 []).map (fun r => decide (FifoInv r.1.fifo)) = some false := by
  decide

end Uart
